import Mathlib

/-
  Verification of the Cassandrust specification against a shallow embedding
  of the source.  Each section embeds the Rust functions one claim group
  needs; rows, maps and byte streams are modelled as lists, machine
  integers as Nat/Int, fallible code as Option/Except.
-/

namespace Cassandrust

/- ----------------------------------------------------------------- -/
/- C1: coordinator consistency check                                  -/
/- ----------------------------------------------------------------- -/

/-- Consistency levels of the client protocol
(src/native/src/native_protocol/models/consistency.rs, lines 5-17). -/
inductive ConsistencyLevel where
  | any | one | two | three | quorum | all
  | localQuorum | eachQuorum | serial | localSerial | localOne
deriving DecidableEq, Repr

/-- Modelled from the spec: the numeric value of a consistency level.  The
body of ConsistencyLevel::to_u16 is not under src/, but the enum declaration
in consistency.rs fixes the discriminants (Any = 0x0000 .. LocalOne = 0x000A)
and the spec's thresholds (One=1, Two=2, Three=3, All needs 3) agree. -/
def ConsistencyLevel.toU16 : ConsistencyLevel → Nat
  | .any => 0
  | .one => 1
  | .two => 2
  | .three => 3
  | .quorum => 4
  | .all => 5
  | .localQuorum => 6
  | .eachQuorum => 7
  | .serial => 8
  | .localSerial => 9
  | .localOne => 10

/-- The coordinator's consistency check
(src/server/src/connections/client.rs, lines 161-163): the
ERROR(ServerError, "Not enough nodes responded to query") reply is sent
exactly when this returns true. -/
def consistencyFails (cl : ConsistencyLevel) (acks : Nat) : Bool :=
  (acks < cl.toU16 && cl != .quorum && cl != .all) || (acks < 3 && cl == .all)

/-- The failure condition as claim C1 words it: fail when the level is One,
Two or Three and acks is below that number, when it is All and acks < 3, or
when it is Quorum and acks < 2. -/
def specC1Fails (cl : ConsistencyLevel) (acks : Nat) : Prop :=
  ((cl = .one ∨ cl = .two ∨ cl = .three) ∧ acks < cl.toU16) ∨
  (cl = .all ∧ acks < 3) ∨ (cl = .quorum ∧ acks < 2)

instance (cl : ConsistencyLevel) (acks : Nat) : Decidable (specC1Fails cl acks) := by
  unfold specC1Fails
  infer_instance

/-- C1 counterexample: at level Quorum with one acknowledgement (of three)
the code does not send the not-enough-nodes error, while the claim's
condition (Quorum and acks < 2) demands it. -/
theorem c1_counterexample :
    consistencyFails .quorum 1 = false ∧ specC1Fails .quorum 1 := by
  constructor
  · rfl
  · decide

/-- C1 (amended): the coordinator replies ERROR(ServerError, "Not enough
nodes responded to query") exactly when the requested level is neither
Quorum nor All and acks is below the level's numeric value (so One, Two,
Three fail below that number and Any never fails), or the level is All and
acks < 3.  Quorum is exempted from the check and never triggers the error. -/
theorem c1_consistency_check (cl : ConsistencyLevel) (acks : Nat) :
    consistencyFails cl acks = true ↔
      ((cl ≠ .quorum ∧ cl ≠ .all ∧ acks < cl.toU16) ∨ (cl = .all ∧ acks < 3)) := by
  cases cl <;> simp [consistencyFails, ConsistencyLevel.toU16]

/- ----------------------------------------------------------------- -/
/- C2: partitioner replica selection                                  -/
/- ----------------------------------------------------------------- -/

/-- A node of the ring (src/server/src/partitioner/node.rs): identity and
closed token range of signed 64-bit integers. -/
structure Node where
  ipAddress : String
  port : Nat
  tokenStart : Int
  tokenEnd : Int
deriving DecidableEq, Repr, Inhabited

/-- The DDL sentinel key (src/server/src/partitioner/murmur3.rs, line 7). -/
def ALL_NODES : String := "ALL_NODES"

/-- The loop condition of Partitioner::get_nodes (murmur3.rs, line 41):
the node's token range [start, end] contains the hash. -/
def Node.containsHash (n : Node) (h : Int) : Bool :=
  n.tokenStart ≤ h && h ≤ n.tokenEnd

/-- Index of the first node satisfying p, mirroring the indexed search loop
of Partitioner::get_nodes (murmur3.rs, lines 40-46). -/
def findFirstIdx (p : Node → Bool) : List Node → Option Nat
  | [] => none
  | n :: rest => if p n then some 0 else (findFirstIdx p rest).map (· + 1)

/-- Partitioner::get_nodes (src/server/src/partitioner/murmur3.rs, lines
32-55).  The Murmur3 x64-128 seed-0 hash is computed by the external
murmur3 crate; it enters the embedding as the function argument hash,
applied to the key exactly where the source computes
murmur3_x64_128(key, 0) as i64. -/
def getNodes (ring : List Node) (hash : String → Int) (key : String) :
    Except String (List Node) :=
  if key = ALL_NODES then .ok ring
  else
    let h := hash key
    match findFirstIdx (fun n => n.containsHash h) ring with
    | none => .error "Node not found"
    | some found =>
        .ok [ring.getD found default,
             ring.getD ((found + 1) % ring.length) default,
             ring.getD ((found + 2) % ring.length) default]

theorem findFirstIdx_eq_some (p : Node → Bool) (ring : List Node) (i : Nat)
    (hi : i < ring.length) (hp : p (ring.get ⟨i, hi⟩) = true)
    (hfirst : ∀ j (hj : j < ring.length), j < i → p (ring.get ⟨j, hj⟩) = false) :
    findFirstIdx p ring = some i := by
  induction ring generalizing i with
  | nil => simp at hi
  | cons n rest ih =>
    cases i with
    | zero =>
      simp only [List.get] at hp
      simp [findFirstIdx, hp]
    | succ k =>
      have hn : p n = false := hfirst 0 (by simp) (Nat.succ_pos k)
      have hk : k < rest.length := Nat.lt_of_succ_lt_succ hi
      have : findFirstIdx p rest = some k := by
        apply ih k hk hp
        intro j hj hjk
        exact hfirst (j + 1) (Nat.succ_lt_succ hj) (Nat.succ_lt_succ hjk)
      simp [findFirstIdx, hn, this]

theorem findFirstIdx_eq_none (p : Node → Bool) (ring : List Node)
    (hall : ∀ j (hj : j < ring.length), p (ring.get ⟨j, hj⟩) = false) :
    findFirstIdx p ring = none := by
  induction ring with
  | nil => rfl
  | cons n rest ih =>
    have hn : p n = false := hall 0 (by simp)
    have : findFirstIdx p rest = none := by
      apply ih
      intro j hj
      exact hall (j + 1) (Nat.succ_lt_succ hj)
    simp [findFirstIdx, hn, this]

/-- C2: for a non-sentinel key, get_nodes hashes the key, returns the unique
node whose token range contains the hash followed by its two ring
successors with wrap-around (in that order), and fails with "Node not
found" when no range contains the hash. -/
theorem c2_replica_selection (hash : String → Int) :
    (∀ (ring : List Node) (key : String) (i : Nat) (hi : i < ring.length),
      key ≠ ALL_NODES →
      (ring.get ⟨i, hi⟩).containsHash (hash key) = true →
      (∀ j (hj : j < ring.length), j ≠ i →
        (ring.get ⟨j, hj⟩).containsHash (hash key) = false) →
      getNodes ring hash key =
        .ok [ring.getD i default,
             ring.getD ((i + 1) % ring.length) default,
             ring.getD ((i + 2) % ring.length) default]) ∧
    (∀ (ring : List Node) (key : String), key ≠ ALL_NODES →
      (∀ j (hj : j < ring.length),
        (ring.get ⟨j, hj⟩).containsHash (hash key) = false) →
      getNodes ring hash key = .error "Node not found") := by
  constructor
  · intro ring key i hi hkey hin huniq
    have hfind : findFirstIdx (fun n => n.containsHash (hash key)) ring = some i := by
      apply findFirstIdx_eq_some _ _ i hi hin
      intro j hj hji
      exact huniq j hj (Nat.ne_of_lt hji)
    simp [getNodes, hkey, hfind]
  · intro ring key hkey hall
    have hfind : findFirstIdx (fun n => n.containsHash (hash key)) ring = none :=
      findFirstIdx_eq_none _ _ hall
    simp [getNodes, hkey, hfind]

/-- Witness for C2 at a concrete three-node ring: the key hashes to 10,
which lies in the second node's range, so the replicas are nodes 1, 2, 0;
a hash outside every range yields the "Node not found" error. -/
theorem c2_replica_selection_witness :
    getNodes
      [⟨"a", 9042, -100, -1⟩, ⟨"b", 9042, 0, 99⟩, ⟨"c", 9042, 100, 199⟩]
      (fun _ => 10) "k" =
      .ok [⟨"b", 9042, 0, 99⟩, ⟨"c", 9042, 100, 199⟩, ⟨"a", 9042, -100, -1⟩] ∧
    getNodes
      [⟨"a", 9042, -100, -1⟩, ⟨"b", 9042, 0, 99⟩, ⟨"c", 9042, 100, 199⟩]
      (fun _ => 500) "k" = .error "Node not found" := by
  constructor
  · exact (c2_replica_selection (fun _ => 10)).1
      [⟨"a", 9042, -100, -1⟩, ⟨"b", 9042, 0, 99⟩, ⟨"c", 9042, 100, 199⟩]
      "k" 1 (by decide) (by decide) (by decide) (by decide)
  · exact (c2_replica_selection (fun _ => 500)).2
      [⟨"a", 9042, -100, -1⟩, ⟨"b", 9042, 0, 99⟩, ⟨"c", 9042, 100, 199⟩]
      "k" (by decide) (by decide)

/- ----------------------------------------------------------------- -/
/- C3: routing-key extraction                                         -/
/- ----------------------------------------------------------------- -/

/-- Primary key of a table schema (src/db/src/models/primary_key.rs):
partition-key columns and clustering-key columns. -/
structure PrimaryKey where
  partitionKey : List String
  clusteringKey : List String
deriving DecidableEq, Repr

/-- Routing-key extraction of handle_connection
(src/server/src/connections/client.rs, lines 54-92).  binding is the list
returned by Query::get_keys().  The code filters it to primary-key columns,
errors when the count differs from the primary key's size, and sorts with a
comparator (lines 82-90) that returns Greater only when the left entry is
not a partition-key column and the right one is; Rust's sort_by is stable,
so the sort moves partition-key entries ahead of clustering-key entries and
otherwise keeps the extraction order, realised here as a stable partition.
The result is the list of values in that order. -/
def routingKeys (pk : PrimaryKey) (binding : List (String × String)) :
    Except String (List String) :=
  let keys := binding.filter
    (fun kv => pk.partitionKey.contains kv.1 || pk.clusteringKey.contains kv.1)
  if keys.length ≠ pk.partitionKey.length + pk.clusteringKey.length then
    .error "Primary key columns not provided"
  else
    .ok ((keys.filter (fun kv => pk.partitionKey.contains kv.1) ++
          keys.filter (fun kv => !pk.partitionKey.contains kv.1)).map Prod.snd)

/-- The value handed to Partitioner::get_nodes (client.rs, line 96): the
first element of the sorted key-value list.  The partition key is non-empty
by schema invariant, so the list is non-empty whenever the count check of
routingKeys passed. -/
def routingKey (pk : PrimaryKey) (binding : List (String × String)) :
    Except String String :=
  (routingKeys pk binding).map (fun ks => ks.headD "")

/-- The routing key as claim C3 words it: the concatenation of the
partition-key values in schema order. -/
def specC3RoutingKey (pk : PrimaryKey) (binding : List (String × String)) :
    String :=
  String.join (pk.partitionKey.map (fun c => (binding.lookup c).getD ""))

/-- C3 counterexample: with two partition-key columns a and b holding
values "1" and "2", the code hashes the single value "1" while the claim's
routing key is the concatenation "12". -/
theorem c3_counterexample :
    routingKey ⟨["a", "b"], []⟩ [("a", "1"), ("b", "2")] = .ok "1" ∧
    specC3RoutingKey ⟨["a", "b"], []⟩ [("a", "1"), ("b", "2")] = "12" ∧
    ("1" : String) ≠ "12" := by
  refine ⟨rfl, rfl, by decide⟩

/-- C3 (amended): the routing key hashed by the partitioner is a single
extracted value, not a concatenation: whenever extraction succeeds and some
extracted entry is a partition-key column, the routing key is the value of
the first such entry in extraction order. -/
theorem c3_routing_key (pk : PrimaryKey) (binding : List (String × String))
    (v : String) (hok : routingKey pk binding = .ok v)
    (hsome : binding.filter (fun kv => pk.partitionKey.contains kv.1) ≠ []) :
    (binding.filter (fun kv => pk.partitionKey.contains kv.1)).head?.map
      Prod.snd = some v := by
  have hff : (binding.filter
      (fun kv => pk.partitionKey.contains kv.1 ||
        pk.clusteringKey.contains kv.1)).filter
        (fun kv => pk.partitionKey.contains kv.1) =
      binding.filter (fun kv => pk.partitionKey.contains kv.1) := by
    rw [List.filter_filter]
    congr 1
    funext kv
    cases h : pk.partitionKey.contains kv.1 <;> simp [h]
  simp only [routingKey, routingKeys] at hok
  split at hok
  · exact absurd hok (by simp [Except.map])
  · rw [hff] at hok
    simp only [Except.map] at hok
    cases hcase : binding.filter (fun kv => pk.partitionKey.contains kv.1) with
    | nil => exact absurd hcase hsome
    | cons x xs =>
      rw [hcase] at hok
      simp only [List.cons_append, List.map_cons, List.headD_cons,
        Except.ok.injEq] at hok
      simp [hcase, hok]

/-- Witness for C3 (amended): with partition key [a, b], clustering key [c]
and extraction order [(c,"3"), ("b","2"), ("a","1")], the routing key is
"2", the value of the first partition-key entry in extraction order. -/
theorem c3_routing_key_witness :
    ([(("c" : String), ("3" : String)), ("b", "2"), ("a", "1")].filter
      (fun kv => (PrimaryKey.mk ["a", "b"] ["c"]).partitionKey.contains kv.1)).head?.map
      Prod.snd = some "2" :=
  c3_routing_key ⟨["a", "b"], ["c"]⟩ [("c", "3"), ("b", "2"), ("a", "1")] "2"
    rfl (by decide)

/- ----------------------------------------------------------------- -/
/- C4: gossip heartbeat updates                                       -/
/- ----------------------------------------------------------------- -/

/-- Runtime view of one peer (src/inc/src/gossip/peer.rs). -/
structure Peer where
  ip : String
  port : Nat
  lastHeartbeat : Nat
  alive : Bool
deriving DecidableEq, Repr

/-- The gossip manager's peer table (gossip/manager.rs): a map from peer
key to Peer, modelled as an association list with distinct keys. -/
abbrev PeerTable := List (String × Peer)

/-- Point update of one entry of the peer table (the write through the
per-peer lock in handler.rs / starter.rs). -/
def setPeer : PeerTable → String → (Peer → Peer) → PeerTable
  | [], _, _ => []
  | (a, b) :: rest, id, f =>
      if a = id then (a, f b) :: setPeer rest id f
      else (a, b) :: setPeer rest id f

def hasPeer (t : PeerTable) (id : String) : Bool :=
  (t.lookup id).isSome

/-- An incoming SYN frame (src/inc/src/gossip/syn.rs). -/
structure Syn where
  sender : String
  ip : String
  port : Nat
  heartbeat : Nat
  knownPeers : List Peer

/-- Update of the SYN sender's entry (gossip/handler.rs, lines 38-50 plus
the deferred insertion at lines 77-87): a known sender's stored heartbeat
is assigned syn.heartbeat unconditionally and alive is set true; an unknown
sender is inserted with those fields. -/
def applySynSender (t : PeerTable) (syn : Syn) : PeerTable :=
  if hasPeer t syn.sender then
    setPeer t syn.sender
      (fun p => { p with lastHeartbeat := syn.heartbeat, alive := true })
  else
    t ++ [(syn.ip, ⟨syn.ip, syn.port, syn.heartbeat, true⟩)]

/-- Merge of one relayed peer entry (gossip/handler.rs, lines 61-75 for a
SYN's known_peers, and gossip/starter.rs, lines 148-173 for an ACK's
update_peers): skip self; a known peer is updated only when the relayed
heartbeat is strictly greater (the monotonicity rule); an unknown peer is
inserted (add_peer followed by the overwrite of heartbeat and alive). -/
def mergeKnownPeer (myId : String) (t : PeerTable) (peer : Peer) : PeerTable :=
  if peer.ip = myId then t
  else if hasPeer t peer.ip then
    setPeer t peer.ip (fun cur =>
      if cur.lastHeartbeat < peer.lastHeartbeat then
        { cur with lastHeartbeat := peer.lastHeartbeat, alive := peer.alive }
      else cur)
  else t ++ [(peer.ip, peer)]

/-- Full peer-table effect of handling one incoming SYN
(gossip/handler.rs, handle_gossip). -/
def handleSynPeers (myId : String) (t : PeerTable) (syn : Syn) : PeerTable :=
  syn.knownPeers.foldl (mergeKnownPeer myId) (applySynSender t syn)

/-- An ACK frame (src/inc/src/gossip/ack.rs). -/
structure Ack where
  heartbeat : Nat
  updatePeers : List Peer

/-- Peer-table effect of a successful ACK in gossip_to_peer
(gossip/starter.rs, lines 138-175): the probed peer's heartbeat is assigned
ack.heartbeat unconditionally and alive set true, then update_peers is
merged under the monotonicity rule. -/
def applyAck (myId : String) (t : PeerTable) (peerId : String) (ack : Ack) :
    PeerTable :=
  ack.updatePeers.foldl (mergeKnownPeer myId)
    (setPeer t peerId
      (fun p => { p with alive := true, lastHeartbeat := ack.heartbeat }))

/-- C4 counterexample: peer B is stored with heartbeat 5; a stale SYN from
B carrying heartbeat 3 regresses the stored value to 3, and a stale ACK
carrying heartbeat 2 regresses it to 2 — both direct updates assign
unconditionally, contradicting the claim that every applied update leaves
the stored heartbeat greater than or equal to its previous value. -/
theorem c4_counterexample :
    ((handleSynPeers "A" [("B", ⟨"B", 9043, 5, true⟩)]
        ⟨"B", "B", 9043, 3, []⟩).lookup "B").map Peer.lastHeartbeat =
      some 3 ∧
    ((applyAck "A" [("B", ⟨"B", 9043, 5, true⟩)] "B"
        ⟨2, []⟩).lookup "B").map Peer.lastHeartbeat = some 2 ∧ 3 < 5 := by
  refine ⟨rfl, rfl, by decide⟩

theorem lookup_setPeer_self (t : PeerTable) (id : String) (f : Peer → Peer) :
    (setPeer t id f).lookup id = (t.lookup id).map f := by
  induction t with
  | nil => rfl
  | cons kv rest ih =>
    obtain ⟨a, b⟩ := kv
    by_cases h : a = id
    · subst h
      simp [setPeer, List.lookup]
    · have hne : (id == a) = false := by
        simp only [beq_eq_false_iff_ne, ne_eq]
        exact fun he => h he.symm
      simp only [setPeer, if_neg h, List.lookup, hne]
      exact ih

theorem lookup_setPeer_ne (t : PeerTable) (id id2 : String)
    (f : Peer → Peer) (h : id ≠ id2) :
    (setPeer t id2 f).lookup id = t.lookup id := by
  induction t with
  | nil => rfl
  | cons kv rest ih =>
    obtain ⟨a, b⟩ := kv
    by_cases hk : a = id2
    · subst hk
      have hne : (id == a) = false := by
        simp only [beq_eq_false_iff_ne, ne_eq]
        exact h
      simp only [setPeer, if_pos rfl, List.lookup, hne]
      exact ih
    · simp only [setPeer, if_neg hk, List.lookup]
      cases hbe : (id == a)
      · exact ih
      · rfl

theorem lookup_append_of_mem (t l : PeerTable) (id : String) (p : Peer)
    (h : t.lookup id = some p) : (t ++ l).lookup id = some p := by
  induction t with
  | nil => simp [List.lookup] at h
  | cons kv rest ih =>
    obtain ⟨a, b⟩ := kv
    simp only [List.cons_append, List.lookup]
    simp only [List.lookup] at h
    cases hbe : (id == a)
    · rw [hbe] at h
      exact ih h
    · rw [hbe] at h
      exact h

theorem lookup_mergeKnownPeer (myId : String) (t : PeerTable) (peer : Peer)
    (id : String) (p : Peer) (hmem : t.lookup id = some p) :
    ∃ q, (mergeKnownPeer myId t peer).lookup id = some q ∧
      p.lastHeartbeat ≤ q.lastHeartbeat := by
  unfold mergeKnownPeer
  by_cases hself : peer.ip = myId
  · exact ⟨p, by simp [hself, hmem], le_refl _⟩
  · simp only [if_neg hself]
    by_cases hhas : hasPeer t peer.ip = true
    · rw [if_pos hhas]
      by_cases hid : id = peer.ip
      · subst hid
        rw [lookup_setPeer_self, hmem]
        refine ⟨_, rfl, ?_⟩
        by_cases hlt : p.lastHeartbeat < peer.lastHeartbeat
        · simpa [hlt] using le_of_lt hlt
        · simp [hlt]
      · have hl := lookup_setPeer_ne t id peer.ip (fun cur => if cur.lastHeartbeat < peer.lastHeartbeat then { cur with lastHeartbeat := peer.lastHeartbeat, alive := peer.alive } else cur) hid
        rw [hl, hmem]
        exact ⟨p, rfl, le_refl _⟩
    · simp only [if_neg hhas]
      exact ⟨p, lookup_append_of_mem _ _ _ _ hmem, le_refl _⟩

/-- C4 (amended): updates applied from a SYN's known_peers list or an ACK's
update_peers list are monotone — for every peer already in the table, the
folded merge leaves its stored heartbeat greater than or equal to the
previous value.  (The direct updates of the SYN sender's entry and of the
probed peer on ACK receipt assign the received heartbeat unconditionally
and can regress it, as the counterexample shows.) -/
theorem c4_merge_monotone (myId : String) (peers : List Peer)
    (t : PeerTable) (id : String) (p : Peer) (hmem : t.lookup id = some p) :
    ∃ q, (peers.foldl (mergeKnownPeer myId) t).lookup id = some q ∧
      p.lastHeartbeat ≤ q.lastHeartbeat := by
  induction peers generalizing t p with
  | nil => exact ⟨p, hmem, le_refl _⟩
  | cons peer rest ih =>
    obtain ⟨q, hq, hle⟩ := lookup_mergeKnownPeer myId t peer id p hmem
    obtain ⟨r, hr, hle2⟩ := ih (mergeKnownPeer myId t peer) q hq
    exact ⟨r, hr, le_trans hle hle2⟩

/-- Witness for C4 (amended) at a concrete table: merging two relayed
entries for B (one stale, one fresh) never lowers B's stored heartbeat. -/
theorem c4_merge_monotone_witness :
    ∃ q, ([⟨"B", 9043, 1, true⟩, ⟨"B", 9043, 9, true⟩].foldl
        (mergeKnownPeer "A") [("B", ⟨"B", 9043, 5, true⟩)]).lookup "B" =
      some q ∧ (5 : Nat) ≤ q.lastHeartbeat :=
  c4_merge_monotone "A" [⟨"B", 9043, 1, true⟩, ⟨"B", 9043, 9, true⟩]
    [("B", ⟨"B", 9043, 5, true⟩)] "B" ⟨"B", 9043, 5, true⟩ rfl

/- ----------------------------------------------------------------- -/
/- C6: hinted handoff on replica-forward failure                      -/
/- ----------------------------------------------------------------- -/

/-- The hint store, modelling the files <node_dir>/hints/<peer_ip>.txt as a
map from peer ip to the list of hint lines. -/
abbrev HintStore := List (String × List String)

/-- add_hint (src/server/src/connections/hinted.rs, lines 56-67): appends
the query text as one line to the peer's hints file, creating the file when
it does not exist. -/
def addHint : HintStore → String → String → HintStore
  | [], node, q => [(node, [q])]
  | (n, ls) :: rest, node, q =>
      if n = node then (n, ls ++ [q]) :: rest
      else (n, ls) :: addHint rest node q

/-- Outcome of forwarding one query frame to a remote replica over TCP. -/
inductive ForwardOutcome where
  | connectFail
  | sendFail
  | replyResult (rows : Option (List (List String)))
  | replyOther
deriving Repr

/-- One iteration of the replica fan-out loop of handle_connection for a
remote node (src/server/src/connections/client.rs, lines 132-158), acting
on the hint store, the collected responses and the ack counter.  A connect
failure adds a hint for a non-SELECT query and continues (lines 139-149);
the results of send_message and read_inc_frame are .unwrap()ed (lines
150-151), so a send or read failure panics the connection thread, modelled
as none; a Result frame is collected and acknowledged; any other frame is
only logged. -/
def forwardStep (isNotSelect : Bool) (outcome : ForwardOutcome)
    (peerIp queryStr : String)
    (st : HintStore × List (Option (List (List String))) × Nat) :
    Option (HintStore × List (Option (List (List String))) × Nat) :=
  match outcome with
  | .connectFail =>
      if isNotSelect then some (addHint st.1 peerIp queryStr, st.2.1, st.2.2)
      else some st
  | .sendFail => none
  | .replyResult rows => some (st.1, st.2.1 ++ [rows], st.2.2 + 1)
  | .replyOther => some st

/-- The per-replica failure handling as claim C6 words it: on a connect or
send failure of a non-SELECT query, record exactly one hint against the
peer and continue with the remaining replicas; for a SELECT the replica is
merely omitted from the acknowledgement count. -/
def specC6Step (isNotSelect : Bool) (outcome : ForwardOutcome)
    (peerIp queryStr : String)
    (st : HintStore × List (Option (List (List String))) × Nat) :
    Option (HintStore × List (Option (List (List String))) × Nat) :=
  match outcome with
  | .connectFail | .sendFail =>
      if isNotSelect then some (addHint st.1 peerIp queryStr, st.2.1, st.2.2)
      else some st
  | .replyResult rows => some (st.1, st.2.1 ++ [rows], st.2.2 + 1)
  | .replyOther => some st

/-- C6 counterexample: when the frame send to a peer fails on a non-SELECT
query, the code panics the connection thread (the source unwraps the send
result) instead of recording a hint and continuing as the claim states. -/
theorem c6_counterexample :
    forwardStep true .sendFail "B" "INSERT q" ([], [], 0) = none ∧
    specC6Step true .sendFail "B" "INSERT q" ([], [], 0) =
      some ([("B", ["INSERT q"])], [], 0) := by
  exact ⟨rfl, rfl⟩

theorem lookup_addHint (store : HintStore) (node q : String) :
    (addHint store node q).lookup node =
      some ((store.lookup node).getD [] ++ [q]) := by
  induction store with
  | nil => simp [addHint, List.lookup]
  | cons kv rest ih =>
    obtain ⟨n, ls⟩ := kv
    by_cases h : n = node
    · subst h
      simp [addHint, List.lookup]
    · have hne : (node == n) = false := by
        simp only [beq_eq_false_iff_ne, ne_eq]
        exact fun he => h he.symm
      simp only [addHint, if_neg h, List.lookup, hne]
      exact ih

/-- C6 (amended): only a TCP connect failure triggers the hint path — for a
non-SELECT query it appends exactly one hint line, the original query
text, to the failed peer's hint entry and continues without an
acknowledgement; for a SELECT it writes no hint and merely omits the
replica from the acknowledgement count; a successful Result reply is
collected and acknowledged.  A send (or reply-read) failure instead panics
the connection thread. -/
theorem c6_forward_failure (peerIp queryStr : String)
    (st : HintStore × List (Option (List (List String))) × Nat) :
    forwardStep true .connectFail peerIp queryStr st =
      some (addHint st.1 peerIp queryStr, st.2.1, st.2.2) ∧
    (addHint st.1 peerIp queryStr).lookup peerIp =
      some ((st.1.lookup peerIp).getD [] ++ [queryStr]) ∧
    forwardStep false .connectFail peerIp queryStr st = some st ∧
    (∀ isNotSelect, forwardStep isNotSelect .sendFail peerIp queryStr st = none) ∧
    (∀ rows, forwardStep true (.replyResult rows) peerIp queryStr st =
      some (st.1, st.2.1 ++ [rows], st.2.2 + 1)) := by
  exact ⟨rfl, lookup_addHint st.1 peerIp queryStr, rfl, fun _ => rfl, fun _ => rfl⟩

/- ----------------------------------------------------------------- -/
/- C8: WHERE-clause comparator evaluation                             -/
/- ----------------------------------------------------------------- -/

/-- Lexicographic comparison on codepoint lists, the order underlying
Rust's String Ord (byte-lexicographic order on UTF-8 coincides with
codepoint order). -/
def charListLt : List Char → List Char → Bool
  | [], [] => false
  | [], _ :: _ => true
  | _ :: _, [] => false
  | a :: as, b :: bs =>
      if a.toNat < b.toNat then true
      else if b.toNat < a.toNat then false
      else charListLt as bs

/-- Rust's strict order on Strings, executable form. -/
def strLt (a b : String) : Bool :=
  charListLt a.data b.data

/-- Rust's three-way String comparison, executable form. -/
def strCompare (a b : String) : Ordering :=
  if strLt a b then .lt else if strLt b a then .gt else .eq

/-- Column types of the row store (src/db/src/models/schema.rs).  The
embedding covers the exactly-representable fragment Boolean, Int, Text;
Float (IEEE-754 f32 parsing) and Timestamp (chrono RFC-3339 parsing)
delegate to external libraries and are left out of the model. -/
inductive SchemaType where
  | boolean | int | text
deriving DecidableEq, Repr

/-- Rust's str::parse::<i32> as used by SchemaType::check_type and cmp:
an optional sign followed by one or more ASCII digits, with the value
within the 32-bit two's-complement range. -/
def parseI32 (s : String) : Option Int :=
  match s.data with
  | [] => none
  | c :: cs =>
    let signDigits : Int × List Char :=
      if c = '-' then (-1, cs) else if c = '+' then (1, cs) else (1, c :: cs)
    if signDigits.2.isEmpty || !signDigits.2.all Char.isDigit then none
    else
      let n : Nat := signDigits.2.foldl (fun a d => a * 10 + (d.toNat - 48)) 0
      let v : Int := signDigits.1 * n
      if -(2 ^ 31) ≤ v ∧ v < 2 ^ 31 then some v else none

/-- SchemaType::check_type (schema.rs, lines 128-156) on the modelled
fragment: booleans are exactly "true"/"false", ints must parse as i32,
text always passes. -/
def SchemaType.checkType : SchemaType → String → Bool
  | .boolean, v => v == "true" || v == "false"
  | .int, v => (parseI32 v).isSome
  | .text, _ => true

/-- SchemaType::cmp (schema.rs, lines 105-126) on the modelled fragment:
both values are type-checked first (an error is none); booleans compare
with false < true, ints numerically, text lexicographically. -/
def SchemaType.cmpVals : SchemaType → String → String → Option Ordering
  | .boolean, v1, v2 =>
      if SchemaType.boolean.checkType v1 && SchemaType.boolean.checkType v2 then
        some (compare (v1 == "true") (v2 == "true"))
      else none
  | .int, v1, v2 =>
      match parseI32 v1, parseI32 v2 with
      | some a, some b => some (compare a b)
      | _, _ => none
  | .text, v1, v2 => some (strCompare v1 v2)

/-- A comparison of a WHERE clause
(src/query/src/models/where_clause.rs, lines 22-29): two operand strings
and the negation flag. -/
inductive Comparator where
  | equal : String → String → Bool → Comparator
  | greaterThan : String → String → Bool → Comparator
  | greaterThanOrEqual : String → String → Bool → Comparator
  | lessThan : String → String → Bool → Comparator
  | lessThanOrEqual : String → String → Bool → Comparator
deriving DecidableEq, Repr

def Comparator.lhs : Comparator → String
  | .equal a _ _ | .greaterThan a _ _ | .greaterThanOrEqual a _ _
  | .lessThan a _ _ | .lessThanOrEqual a _ _ => a

def Comparator.rhs : Comparator → String
  | .equal _ b _ | .greaterThan _ b _ | .greaterThanOrEqual _ b _
  | .lessThan _ b _ | .lessThanOrEqual _ b _ => b

def Comparator.negFlag : Comparator → Bool
  | .equal _ _ n | .greaterThan _ _ n | .greaterThanOrEqual _ _ n
  | .lessThan _ _ n | .lessThanOrEqual _ _ n => n

/-- The un-negated verdict of a comparator on an Ordering, mirroring the
is_eq / is_gt / is_lt / is_ge / is_le calls of WhereClause::process
(where_clause.rs, lines 282-288); the source then applies != not. -/
def Comparator.applyOrd : Comparator → Ordering → Bool
  | .equal _ _ _, result => result == .eq
  | .greaterThan _ _ _, result => result == .gt
  | .greaterThanOrEqual _ _ _, result => result != .lt
  | .lessThan _ _ _, result => result == .lt
  | .lessThanOrEqual _ _ _, result => result != .gt

/-- A row as read from the table file: a map from column name to textual
value, modelled as an association list. -/
abbrev Row := List (String × String)

/-- An in-memory schema fragment: column name to SchemaType. -/
abbrev SchemaCols := List (String × SchemaType)

/-- WhereClause::process (src/query/src/models/where_clause.rs, lines
260-289): each side resolves through the row (a key present in the row
yields the row's value, anything else stays a literal); if either resolved
side is "NULL" the result is the plain equality of the resolved values
(the negation flag is not consulted on this path); otherwise the
SchemaType found for val1 (or else val2) compares the resolved values and
the negation flag is applied last.  none models the source's Err returns
(no valid column / type-check failure). -/
def whereProcess (val1 val2 : String) (row : Row) (op : Comparator)
    (schema : SchemaCols) : Option Bool :=
  let value1 := (row.lookup val1).getD val1
  let value2 := (row.lookup val2).getD val2
  if value1 == "NULL" || value2 == "NULL" then some (value1 == value2)
  else
    match (schema.lookup val1).orElse (fun _ => schema.lookup val2) with
    | none => none
    | some st =>
      match st.cmpVals value1 value2 with
      | none => none
      | some result => some (op.applyOrd result != op.negFlag)

/-- C8 counterexample: the negated comparator NOT age = NULL on a row whose
age is "NULL" evaluates to true in the code (the NULL branch returns the
plain equality "NULL" = "NULL"), whereas the claim applies the negation
last and demands false. -/
theorem c8_counterexample :
    whereProcess "age" "NULL" [("age", "NULL")] (.equal "age" "NULL" true)
      [("age", SchemaType.int)] = some true ∧
    ((("NULL" : String) == "NULL") != true) = false := by
  exact ⟨rfl, rfl⟩

/-- C8 (amended): after resolving each side through the row, if either
resolved side equals "NULL" the result is the plain equality of the two
resolved values with the negation flag ignored (not applied); otherwise
the SchemaType comparator of the first side's column (or else the second
side's) decides the un-negated verdict and the negation flag is applied
last. -/
theorem c8_where_process (val1 val2 : String) (row : Row) (op : Comparator)
    (schema : SchemaCols) :
    (((row.lookup val1).getD val1 = "NULL" ∨
        (row.lookup val2).getD val2 = "NULL") →
      whereProcess val1 val2 row op schema =
        some (((row.lookup val1).getD val1) ==
          ((row.lookup val2).getD val2))) ∧
    (((row.lookup val1).getD val1 ≠ "NULL" ∧
        (row.lookup val2).getD val2 ≠ "NULL") →
      ∀ st result,
        (schema.lookup val1).orElse (fun _ => schema.lookup val2) = some st →
        st.cmpVals ((row.lookup val1).getD val1)
          ((row.lookup val2).getD val2) = some result →
        whereProcess val1 val2 row op schema =
          some (op.applyOrd result != op.negFlag)) := by
  constructor
  · intro hnull
    unfold whereProcess
    have : (((row.lookup val1).getD val1 == "NULL") ||
        ((row.lookup val2).getD val2 == "NULL")) = true := by
      rcases hnull with h | h <;> simp [h]
    simp only [this, if_true]
  · intro hnn st result hst hcmp
    obtain ⟨h1, h2⟩ := hnn
    unfold whereProcess
    have : (((row.lookup val1).getD val1 == "NULL") ||
        ((row.lookup val2).getD val2 == "NULL")) = false := by
      simp [h1, h2]
    simp only [this, hst, hcmp]
    rfl

/-- Witness for C8 (amended) at concrete rows: the NULL branch on a row
with age = "NULL", and the typed branch comparing ints 25 and 30 under a
negated less-than. -/
theorem c8_where_process_witness :
    whereProcess "age" "NULL" [("age", "NULL")] (.equal "age" "NULL" true)
      [("age", SchemaType.int)] = some ((("NULL" : String)) == "NULL") ∧
    whereProcess "age" "30" [("age", "25")] (.lessThan "age" "30" true)
      [("age", SchemaType.int)] =
      some ((Comparator.lessThan "age" "30" true).applyOrd
        (compare (25 : Int) 30) != true) := by
  constructor
  · exact (c8_where_process "age" "NULL" [("age", "NULL")]
      (.equal "age" "NULL" true) [("age", SchemaType.int)]).1
      (Or.inl rfl)
  · exact (c8_where_process "age" "30" [("age", "25")]
      (.lessThan "age" "30" true) [("age", SchemaType.int)]).2
      ⟨by decide, by decide⟩ SchemaType.int (compare (25 : Int) 30) rfl rfl

/- ----------------------------------------------------------------- -/
/- Query executor embedding (C5, C7)                                  -/
/- ----------------------------------------------------------------- -/

/-- Logical operators of a WHERE clause (where_clause.rs, lines 10-16). -/
inductive GateOp where
  | andOp | orOp | openParen | notOp
deriving DecidableEq, Repr

/-- A WHERE clause: a comparison or a tree of comparisons
(where_clause.rs, lines 33-37). -/
inductive WhereClause where
  | comp : Comparator → WhereClause
  | tree : WhereClause → GateOp → WhereClause → WhereClause
deriving DecidableEq, Repr

/-- WhereClause::eval (where_clause.rs, lines 217-242): a comparison is
delegated to process; for a tree both sides are evaluated (no
short-circuit) and And/Or combine them; any other operator in tree
position is an error, modelled as none. -/
def WhereClause.eval : WhereClause → Row → SchemaCols → Option Bool
  | .comp c, row, schema => whereProcess c.lhs c.rhs row c schema
  | .tree l op r, row, schema =>
      match l.eval row schema, r.eval row schema with
      | some lv, some rv =>
          match op with
          | .andOp => some (lv && rv)
          | .orOp => some (lv || rv)
          | _ => none
      | _, _ => none

/-- The row-collecting visitor of the Select branch of Query::process
(query.rs, lines 78-84): stream the rows, keep those satisfying the WHERE
clause, abort on an evaluation error. -/
def filterRows (wc : WhereClause) (schema : SchemaCols) :
    List Row → Except String (List Row)
  | [] => .ok []
  | r :: rest =>
      match wc.eval r schema with
      | none => .error "where evaluation failed"
      | some true => (filterRows wc schema rest).map (r :: ·)
      | some false => filterRows wc schema rest

/-- ORDER BY direction (src/query/src/models/statement.rs). -/
inductive OrderMode where
  | asc | desc
deriving DecidableEq, Repr

/-- A row as sent back to the coordinator: the projected values. -/
abbrev OutRow := List String

/-- Rust's Ord on Option<&String> as used by order_rows: None sorts before
Some and values compare lexicographically (partial_cmp on these operands
is always Some, so the unwrap_or(Equal) in the source never fires). -/
def cmpOptStr : Option String → Option String → Ordering
  | none, none => .eq
  | none, some _ => .lt
  | some _, none => .gt
  | some a, some b => strCompare a b

/-- The ORDER BY sort of order_rows (query.rs, lines 196-209): Vec::sort_by
is stable, modelled with mergeSort; ascending and descending swap the
comparison operands. -/
def sortRows (rows : List Row) (order : Option (String × OrderMode)) :
    List Row :=
  match order with
  | none => rows
  | some (orderBy, .asc) =>
      rows.mergeSort (fun a b =>
        cmpOptStr (a.lookup orderBy) (b.lookup orderBy) != .gt)
  | some (orderBy, .desc) =>
      rows.mergeSort (fun a b =>
        cmpOptStr (b.lookup orderBy) (a.lookup orderBy) != .gt)

/-- order_rows (src/query/src/models/query.rs, lines 183-220): an empty
match list short-circuits to Ok(None); the requested columns are validated
against the first row only; ORDER BY sorts by string ordering; finally
rows are projected to the requested columns in requested order with
"NULL" for absent values. -/
def orderRows (rows : List Row) (order : Option (String × OrderMode))
    (toPrint : List String) : Except String (Option (List OutRow)) :=
  match rows with
  | [] => .ok none
  | r0 :: _ =>
    match toPrint.find? (fun col => (r0.lookup col).isNone) with
    | some col => .error ("Column " ++ col ++ " does not exist")
    | none =>
      .ok (some ((sortRows rows order).map (fun row =>
        toPrint.map (fun col => (row.lookup col).getD "NULL"))))

/-- HashMap::insert on the association-list row model: replace the value
of an existing key or append a new binding. -/
def insertKV : Row → String → String → Row
  | [], col, val => [(col, val)]
  | (k, v) :: rest, col, val =>
      if k = col then (k, val) :: rest else (k, v) :: insertKV rest col val

/-- The SET overlay of the Update branch of Query::process (query.rs,
lines 93-95): each assignment is inserted into the row map. -/
def overlay (row : Row) (assignments : Row) : Row :=
  assignments.foldl (fun r kv => insertKV r kv.1 kv.2) row

/-- Schema::check_type (schema.rs, lines 207-212): look the column up in
the schema (an unknown column is an error) and type-check the value. -/
def checkTypeSchema (schema : SchemaCols) (col v : String) :
    Except String Unit :=
  match schema.lookup col with
  | none => .error "Column not found"
  | some st => if st.checkType v then .ok () else .error "Invalid value"

/-- map_string_record_to_hashmap (tables.rs, lines 256-265): pair the
header with the record's values. -/
def rowMap (cols : List String) (record : List String) : Row :=
  cols.zip record

/-- The row re-serialization of Tables::update_table (tables.rs, lines
206-217): for every header column take the visitor's value, else the
original row's, else "NULL"; non-NULL values are type-checked. -/
def writeBackRow (schema : SchemaCols) (origMap updated : Row) :
    List String → Except String (List String)
  | [] => .ok []
  | col :: cs =>
      let v := ((updated.lookup col).orElse
        (fun _ => origMap.lookup col)).getD "NULL"
      if v = "NULL" then (writeBackRow schema origMap updated cs).map (v :: ·)
      else
        match checkTypeSchema schema col v with
        | .error e => .error e
        | .ok _ => (writeBackRow schema origMap updated cs).map (v :: ·)

/-- Tables::update_table (src/db/src/models/tables.rs, lines 175-222):
stream the records of table.csv through the visitor; a None visitor result
omits the row, a Some result is written back per header column.  The temp
file produced this way atomically replaces the original on success. -/
def updateTable (schema : SchemaCols) (cols : List String)
    (visitor : Row → Except String (Option Row)) :
    List (List String) → Except String (List (List String))
  | [] => .ok []
  | rec :: rest =>
      match visitor (rowMap cols rec) with
      | .error e => .error e
      | .ok none => updateTable schema cols visitor rest
      | .ok (some updated) =>
          match writeBackRow schema (rowMap cols rec) updated cols with
          | .error e => .error e
          | .ok row => (updateTable schema cols visitor rest).map (row :: ·)

/-- The Update visitor of Query::process (query.rs, lines 90-101): a
matching row gets the SET assignments overlaid; a non-matching row is
returned unchanged. -/
def updateVisitor (wc : WhereClause) (schema : SchemaCols)
    (assignments : Row) (row : Row) : Except String (Option Row) :=
  match wc.eval row schema with
  | none => .error "where evaluation failed"
  | some true => .ok (some (overlay row assignments))
  | some false => .ok (some row)

/-- The Delete visitor of Query::process (query.rs, lines 102-110): a
matching row is omitted, a non-matching row is kept unchanged. -/
def deleteVisitor (wc : WhereClause) (schema : SchemaCols) (row : Row) :
    Except String (Option Row) :=
  match wc.eval row schema with
  | none => .error "where evaluation failed"
  | some true => .ok none
  | some false => .ok (some row)

/-- Tables::append_to_table (tables.rs, lines 143-173): build one record
from the header columns, taking the provided value or "NULL"; non-NULL
values are type-checked; the record is appended to the row file. -/
def appendRow (schema : SchemaCols) (data : Row) :
    List String → Except String (List String)
  | [] => .ok []
  | col :: cs =>
      let v := (data.lookup col).getD "NULL"
      if v = "NULL" then (appendRow schema data cs).map (v :: ·)
      else
        match checkTypeSchema schema col v with
        | .error e => .error e
        | .ok _ => (appendRow schema data cs).map (v :: ·)

/-- Statements of the query IR (src/query/src/models/statement.rs). -/
inductive Statement where
  | createTable (schemaCols : List (String × SchemaType)) (pk : PrimaryKey)
  | dropTable
  | select (cols : List String) (order : Option (String × OrderMode))
  | insert (row : Row)
  | update (assignments : Row)
  | delete
deriving DecidableEq, Repr

/-- A parsed query (src/query/src/models/query.rs, lines 19-23). -/
structure Query where
  statement : Statement
  whereClause : Option WhereClause
deriving DecidableEq, Repr

/-- One table's on-disk state: its schema, the header of table.csv and the
records below the header. -/
structure Table where
  schema : SchemaCols
  cols : List String
  records : List (List String)
deriving DecidableEq, Repr

/-- Query::process (src/query/src/models/query.rs, lines 58-115) against
one table, the table state threaded explicitly (none = the table's
directory does not exist).  CreateTable fails when the table exists and
otherwise creates it with the header taken from the schema's columns;
DropTable removes it; Select filters, orders and projects; Insert appends
one record; Update and Delete rewrite the row file through their visitor.
The source unwraps the WHERE clause in the Select/Update/Delete branches
(thread panic when absent); the embedding surfaces that as an error
value, a case none of the theorems relies on. -/
def Query.process (q : Query) (ts : Option Table) :
    Except String (Option Table × Option (List OutRow)) :=
  match q.statement with
  | .createTable schemaCols _pk =>
      match ts with
      | some _ => .error "Table already exists"
      | none =>
          .ok (some ⟨schemaCols, schemaCols.map Prod.fst, []⟩, none)
  | .dropTable =>
      match ts with
      | none => .error "Table does not exist"
      | some _ => .ok (none, none)
  | .select toPrint order =>
      match ts, q.whereClause with
      | none, _ => .error "Table not found"
      | _, none => .error "panic: missing where clause"
      | some tbl, some wc =>
          match filterRows wc tbl.schema (tbl.records.map (rowMap tbl.cols)) with
          | .error e => .error e
          | .ok matching =>
              match orderRows matching order toPrint with
              | .error e => .error e
              | .ok res => .ok (some tbl, res)
  | .insert row =>
      match ts with
      | none => .error "Table not found"
      | some tbl =>
          match appendRow tbl.schema row tbl.cols with
          | .error e => .error e
          | .ok rec =>
              .ok (some { tbl with records := tbl.records ++ [rec] }, none)
  | .update assignments =>
      match ts, q.whereClause with
      | none, _ => .error "Table not found"
      | _, none => .error "panic: missing where clause"
      | some tbl, some wc =>
          match updateTable tbl.schema tbl.cols
              (updateVisitor wc tbl.schema assignments) tbl.records with
          | .error e => .error e
          | .ok out => .ok (some { tbl with records := out }, none)
  | .delete =>
      match ts, q.whereClause with
      | none, _ => .error "Table not found"
      | _, none => .error "panic: missing where clause"
      | some tbl, some wc =>
          match updateTable tbl.schema tbl.cols
              (deleteVisitor wc tbl.schema) tbl.records with
          | .error e => .error e
          | .ok out => .ok (some { tbl with records := out }, none)

/- ----------------------------------------------------------------- -/
/- C5: process result shape                                           -/
/- ----------------------------------------------------------------- -/

theorem length_sortRows (rows : List Row)
    (order : Option (String × OrderMode)) :
    (sortRows rows order).length = rows.length := by
  cases order with
  | none => rfl
  | some o =>
    obtain ⟨ob, om⟩ := o
    cases om <;> simp [sortRows]

theorem mem_sortRows (rows : List Row) (order : Option (String × OrderMode))
    (m : Row) : m ∈ sortRows rows order ↔ m ∈ rows := by
  cases order with
  | none => exact Iff.rfl
  | some o =>
    obtain ⟨ob, om⟩ := o
    cases om <;> simp [sortRows]

theorem orderRows_ok (rows : List Row) (order : Option (String × OrderMode))
    (toPrint : List String) (res : Option (List OutRow))
    (hok : orderRows rows order toPrint = .ok res) :
    (res = none ↔ rows = []) ∧
    (∀ out, res = some out → out.length = rows.length ∧
      ∀ r ∈ out, ∃ m ∈ rows,
        r = toPrint.map (fun col => (m.lookup col).getD "NULL")) := by
  cases rows with
  | nil =>
    simp only [orderRows, Except.ok.injEq] at hok
    subst hok
    exact ⟨by simp, fun out hout => by cases hout⟩
  | cons r0 rs =>
    simp only [orderRows] at hok
    split at hok
    · cases hok
    · simp only [Except.ok.injEq] at hok
      subst hok
      constructor
      · simp
      · intro out hout
        simp only [Option.some.injEq] at hout
        subst hout
        constructor
        · rw [List.length_map, length_sortRows]
        · intro r hr
          rw [List.mem_map] at hr
          obtain ⟨m, hm, hproj⟩ := hr
          exact ⟨m, (mem_sortRows _ _ _).mp hm, hproj.symm⟩

/-- A sample table used by the C5 theorems: columns id int and name text,
one record (1, ada). -/
def sampleTable : Table :=
  ⟨[("id", SchemaType.int), ("name", SchemaType.text)],
   ["id", "name"], [["1", "ada"]]⟩

/-- C5 counterexample: a SELECT whose WHERE clause (id = 7) matches no
stored row returns None — order_rows short-circuits on the empty match
list — not Some of the empty row list as the claim states. -/
theorem c5_counterexample :
    Query.process ⟨.select ["name"] none, some (.comp (.equal "id" "7" false))⟩
      (some sampleTable) = .ok (some sampleTable, none) ∧
    (none : Option (List OutRow)) ≠ some [] := by
  exact ⟨rfl, by decide⟩

/-- C5 (amended): process returns Some(rows) exactly when the statement is
a SELECT and at least one stored row satisfies the WHERE clause — a SELECT
matching no row returns None, not Some of the empty list — with each
returned row the projection of a matching row to the requested columns in
requested order and "NULL" for absent values; for INSERT, UPDATE, DELETE,
CREATE TABLE and DROP TABLE process returns None. -/
theorem c5_process_select :
    (∀ (tbl : Table) (wc : WhereClause) (toPrint : List String)
        (order : Option (String × OrderMode)) (ts2 : Option Table)
        (res : Option (List OutRow)) (matching : List Row),
      Query.process ⟨.select toPrint order, some wc⟩ (some tbl) =
        .ok (ts2, res) →
      filterRows wc tbl.schema (tbl.records.map (rowMap tbl.cols)) =
        .ok matching →
      ts2 = some tbl ∧
      (res = none ↔ matching = []) ∧
      (∀ out, res = some out → out.length = matching.length ∧
        ∀ r ∈ out, ∃ m ∈ matching,
          r = toPrint.map (fun col => (m.lookup col).getD "NULL"))) ∧
    (∀ (q : Query) (ts ts2 : Option Table) (res : Option (List OutRow)),
      (∀ cols order, q.statement ≠ .select cols order) →
      q.process ts = .ok (ts2, res) → res = none) := by
  constructor
  · intro tbl wc toPrint order ts2 res matching hok hfm
    simp only [Query.process] at hok
    split at hok
    · rename_i e heq
      rw [hfm] at heq
      cases heq
    · rename_i m2 heq
      rw [hfm] at heq
      injection heq with heq
      subst heq
      split at hok
      · cases hok
      · rename_i r horder
        simp only [Except.ok.injEq, Prod.mk.injEq] at hok
        obtain ⟨h1, h2⟩ := hok
        subst h1
        subst h2
        exact ⟨rfl, orderRows_ok _ _ _ _ horder⟩
  · intro q ts ts2 res hns hok
    obtain ⟨stmt, wcOpt⟩ := q
    cases stmt with
    | createTable schemaCols pk =>
      cases ts with
      | none =>
        simp only [Query.process, Except.ok.injEq, Prod.mk.injEq] at hok
        exact hok.2.symm
      | some tbl => cases hok
    | dropTable =>
      cases ts with
      | none => cases hok
      | some tbl =>
        simp only [Query.process, Except.ok.injEq, Prod.mk.injEq] at hok
        exact hok.2.symm
    | select cols order => exact absurd rfl (hns cols order)
    | insert row =>
      cases ts with
      | none => cases hok
      | some tbl =>
        simp only [Query.process] at hok
        cases happ : appendRow tbl.schema row tbl.cols with
        | error e =>
          rw [happ] at hok
          cases hok
        | ok rec =>
          rw [happ] at hok
          simp only [Except.ok.injEq, Prod.mk.injEq] at hok
          exact hok.2.symm
    | update assignments =>
      cases ts with
      | none => simp [Query.process] at hok
      | some tbl =>
        cases wcOpt with
        | none => simp [Query.process] at hok
        | some wc =>
          cases hup : updateTable tbl.schema tbl.cols
              (updateVisitor wc tbl.schema assignments) tbl.records with
          | error e => simp [Query.process, hup] at hok
          | ok outRecs =>
            simp only [Query.process, hup, Except.ok.injEq,
              Prod.mk.injEq] at hok
            exact hok.2.symm
    | delete =>
      cases ts with
      | none => simp [Query.process] at hok
      | some tbl =>
        cases wcOpt with
        | none => simp [Query.process] at hok
        | some wc =>
          cases hup : updateTable tbl.schema tbl.cols
              (deleteVisitor wc tbl.schema) tbl.records with
          | error e => simp [Query.process, hup] at hok
          | ok outRecs =>
            simp only [Query.process, hup, Except.ok.injEq,
              Prod.mk.injEq] at hok
            exact hok.2.symm

/-- Witness for C5 at concrete inputs: the SELECT name WHERE id = 1 on the
sample table yields exactly the projected matching row, and an INSERT into
the sample table returns None. -/
theorem c5_process_select_witness :
    ((some sampleTable : Option Table) = some sampleTable ∧
      ((some [["ada"]] : Option (List OutRow)) = none ↔
        ([[("id", "1"), ("name", "ada")]] : List Row) = []) ∧
      (∀ out, (some [["ada"]] : Option (List OutRow)) = some out →
        out.length = ([[("id", "1"), ("name", "ada")]] : List Row).length ∧
        ∀ r ∈ out, ∃ m ∈ ([[("id", "1"), ("name", "ada")]] : List Row),
          r = ["name"].map (fun col => (m.lookup col).getD "NULL"))) ∧
    (none : Option (List OutRow)) = none := by
  constructor
  · exact c5_process_select.1 sampleTable (.comp (.equal "id" "1" false))
      ["name"] none (some sampleTable) (some [["ada"]])
      [[("id", "1"), ("name", "ada")]] rfl rfl
  · exact c5_process_select.2 ⟨.insert [("id", "2"), ("name", "bob")], none⟩
      (some sampleTable)
      (some ⟨[("id", SchemaType.int), ("name", SchemaType.text)],
        ["id", "name"], [["1", "ada"], ["2", "bob"]]⟩)
      none (fun cols order h => by cases h) rfl

/- ----------------------------------------------------------------- -/
/- C7: UPDATE frame effect                                            -/
/- ----------------------------------------------------------------- -/

theorem optionOrElseSelf {α : Type} (o : Option α) :
    (o.orElse fun _ => o) = o := by
  cases o <;> rfl

theorem writeBackRow_ok (schema : SchemaCols) (orig updated : Row)
    (cs : List String) (row : List String)
    (hok : writeBackRow schema orig updated cs = .ok row) :
    row = cs.map (fun col =>
      ((updated.lookup col).orElse (fun _ => orig.lookup col)).getD "NULL") := by
  induction cs generalizing row with
  | nil =>
    simp only [writeBackRow, Except.ok.injEq] at hok
    simp [← hok]
  | cons col cs ih =>
    simp only [writeBackRow] at hok
    by_cases hnull :
        (((updated.lookup col).orElse (fun _ => orig.lookup col)).getD "NULL")
          = "NULL"
    · rw [if_pos hnull] at hok
      cases hrest : writeBackRow schema orig updated cs with
      | error e =>
        rw [hrest] at hok
        cases hok
      | ok rest =>
        rw [hrest] at hok
        simp only [Except.map, Except.ok.injEq] at hok
        subst hok
        simp [ih rest hrest, hnull]
    · rw [if_neg hnull] at hok
      cases hc : checkTypeSchema schema col
          (((updated.lookup col).orElse (fun _ => orig.lookup col)).getD
            "NULL") with
      | error e =>
        rw [hc] at hok
        cases hok
      | ok u =>
        rw [hc] at hok
        cases hrest : writeBackRow schema orig updated cs with
        | error e =>
          rw [hrest] at hok
          cases hok
        | ok rest =>
          rw [hrest] at hok
          simp only [Except.map, Except.ok.injEq] at hok
          subst hok
          simp [ih rest hrest]

theorem lookup_zip_of_nodup (cols : List String) (rec : List String)
    (hnodup : cols.Nodup) (hlen : rec.length = cols.length) :
    cols.map (fun col => ((cols.zip rec).lookup col).getD "NULL") = rec := by
  induction cols generalizing rec with
  | nil =>
    cases rec with
    | nil => rfl
    | cons v vs => simp at hlen
  | cons c cs ih =>
    cases rec with
    | nil => simp at hlen
    | cons v vs =>
      rw [List.nodup_cons] at hnodup
      obtain ⟨hc, hcs⟩ := hnodup
      have hl : vs.length = cs.length := by simpa using hlen
      simp only [List.zip_cons_cons, List.map_cons]
      congr 1
      · simp [List.lookup]
      · have hcong : ∀ col ∈ cs,
            (((c, v) :: cs.zip vs).lookup col).getD "NULL" =
            ((cs.zip vs).lookup col).getD "NULL" := by
          intro col hcol
          have hne : (col == c) = false := by
            simp only [beq_eq_false_iff_ne, ne_eq]
            intro he
            exact hc (he ▸ hcol)
          simp [List.lookup, hne]
        rw [List.map_congr_left hcong]
        exact ih vs hcs hl

/-- C7: an UPDATE rewrites the row file keeping the record count, writes
every row whose WHERE evaluation is false back unchanged, overlays the SET
assignments on matching rows only (every written column takes the
overlaid row's value, falling back to the original), and in particular an
UPDATE whose WHERE matches no row never synthesizes a new row. -/
theorem c7_update_frame (wc : WhereClause) (schema : SchemaCols) (asg : Row)
    (cols : List String) (records out : List (List String))
    (hnodup : cols.Nodup)
    (hok : updateTable schema cols (updateVisitor wc schema asg) records =
      .ok out) :
    out.length = records.length ∧
    ∀ i rec, records.get? i = some rec →
      (wc.eval (rowMap cols rec) schema = some false →
        rec.length = cols.length → out.get? i = some rec) ∧
      (wc.eval (rowMap cols rec) schema = some true →
        out.get? i = some (cols.map (fun col =>
          (((overlay (rowMap cols rec) asg).lookup col).orElse
            (fun _ => (rowMap cols rec).lookup col)).getD "NULL"))) := by
  induction records generalizing out with
  | nil =>
    simp only [updateTable, Except.ok.injEq] at hok
    subst hok
    exact ⟨rfl, fun i rec h => by simp at h⟩
  | cons rec rest ih =>
    cases heval : wc.eval (rowMap cols rec) schema with
    | none => simp [updateTable, updateVisitor, heval] at hok
    | some b =>
      cases b with
      | false =>
        simp only [updateTable, updateVisitor, heval] at hok
        cases hwb : writeBackRow schema (rowMap cols rec) (rowMap cols rec)
            cols with
        | error e => simp [hwb] at hok
        | ok row =>
          simp only [hwb] at hok
          cases hrest : updateTable schema cols
              (updateVisitor wc schema asg) rest with
          | error e => simp [hrest, Except.map] at hok
          | ok outRest =>
            simp only [hrest, Except.map, Except.ok.injEq] at hok
            subst hok
            obtain ⟨ihlen, ihidx⟩ := ih outRest hrest
            constructor
            · simp [ihlen]
            · intro i r hr
              cases i with
              | zero =>
                simp only [List.get?] at hr
                injection hr with hr
                subst hr
                constructor
                · intro _ hlen
                  have hrow := writeBackRow_ok _ _ _ _ _ hwb
                  have hrow2 : row = cols.map (fun col =>
                      (((rowMap cols rec).lookup col)).getD "NULL") := by
                    rw [hrow]
                    exact List.map_congr_left (fun col _ => by
                      rw [optionOrElseSelf])
                  simp only [List.get?]
                  rw [hrow2]
                  exact congrArg some (lookup_zip_of_nodup cols rec hnodup hlen)
                · intro htrue
                  rw [heval] at htrue
                  cases htrue
              | succ k =>
                simp only [List.get?] at hr ⊢
                exact ihidx k r hr
      | true =>
        simp only [updateTable, updateVisitor, heval] at hok
        cases hwb : writeBackRow schema (rowMap cols rec)
            (overlay (rowMap cols rec) asg) cols with
        | error e => simp [hwb] at hok
        | ok row =>
          simp only [hwb] at hok
          cases hrest : updateTable schema cols
              (updateVisitor wc schema asg) rest with
          | error e => simp [hrest, Except.map] at hok
          | ok outRest =>
            simp only [hrest, Except.map, Except.ok.injEq] at hok
            subst hok
            obtain ⟨ihlen, ihidx⟩ := ih outRest hrest
            constructor
            · simp [ihlen]
            · intro i r hr
              cases i with
              | zero =>
                simp only [List.get?] at hr
                injection hr with hr
                subst hr
                constructor
                · intro hfalse
                  rw [heval] at hfalse
                  cases hfalse
                · intro _
                  have hrow := writeBackRow_ok _ _ _ _ _ hwb
                  simp only [List.get?]
                  rw [hrow]
              | succ k =>
                simp only [List.get?] at hr ⊢
                exact ihidx k r hr

/-- Witness for C7 at a concrete table: UPDATE name = eve WHERE id = 1 on
records [(1, ada), (2, bob)] rewrites exactly two rows. -/
theorem c7_update_frame_witness :
    ([["1", "eve"], ["2", "bob"]] : List (List String)).length =
      ([["1", "ada"], ["2", "bob"]] : List (List String)).length :=
  (c7_update_frame (.comp (.equal "id" "1" false))
    [("id", SchemaType.int), ("name", SchemaType.text)] [("name", "eve")]
    ["id", "name"] [["1", "ada"], ["2", "bob"]] [["1", "eve"], ["2", "bob"]]
    (by decide) rfl).1

/- ----------------------------------------------------------------- -/
/- C10: response reconciliation and read-repair totality              -/
/- ----------------------------------------------------------------- -/

/-- A replica's row set as collected by the coordinator. -/
abbrev Rows := List OutRow

/-- The HashMap entry bump of the counting pass of compare_responses
(client.rs, line 263). -/
def bumpCount : List (Rows × Nat) → Rows → Nat → List (Rows × Nat)
  | [], r, c => [(r, c)]
  | (k, v) :: rest, r, c =>
      if k = r then (k, c) :: rest else (k, v) :: bumpCount rest r c

/-- The counting pass of compare_responses (client.rs, lines 261-267):
count each distinct row set in order and return the first whose count
reaches the target (the early return at line 264). -/
def countFirstReaching (target : Nat) :
    List Rows → List (Rows × Nat) → Option Rows
  | [], _ => none
  | r :: rest, counts =>
      let c := (counts.lookup r).getD 0 + 1
      if target ≤ c then some r
      else countFirstReaching target rest (bumpCount counts r c)

/-- One row of the latest-wins merge of compare_responses (client.rs,
lines 270-273): res[idx] is replaced when the candidate row's trailing
last_update is strictly greater; indexing past res or taking the last
element of an empty row is the source's panic, modelled as none. -/
def mergeRow (res : Rows) (idx : Nat) (row : OutRow) : Option Rows :=
  match res.get? idx, row.getLast? with
  | some cur, some rowLast =>
      match cur.getLast? with
      | some curLast =>
          some (if strLt curLast rowLast then res.set idx row else res)
      | none => none
  | _, _ => none

/-- The enumerate loop over one response (client.rs, lines 269-274). -/
def mergeRowsAux (res : Rows) (idx : Nat) : List OutRow → Option Rows
  | [] => some res
  | row :: rest =>
      match mergeRow res idx row with
      | none => none
      | some res2 => mergeRowsAux res2 (idx + 1) rest

/-- The latest-wins merge of compare_responses (client.rs, lines 268-275
and its All twin at lines 283-290): fold every remaining response into the
first by row index. -/
def mergeLatest (first : Rows) : List Rows → Option Rows
  | [] => some first
  | response :: rest =>
      match mergeRowsAux first 0 response with
      | none => none
      | some f2 => mergeLatest f2 rest

/-- The latest-wins fallback shared by the Two/Three/Quorum and All arms
of compare_responses (client.rs, lines 268-276 and 283-291): merge all
responses into the first and return the result. -/
def mergeOrValue (valid : List Rows) : Option (Option Rows) :=
  match mergeLatest (valid.headD []) valid.tail with
  | none => none
  | some res => some (some res)

/-- The Two/Three/Quorum arm of compare_responses (client.rs, lines
255-277): return the first response reaching the target count, otherwise
fall back to the latest-wins merge. -/
def countOrMerge (target : Nat) (valid : List Rows) : Option (Option Rows) :=
  match countFirstReaching target valid [] with
  | some r => some (some r)
  | none => mergeOrValue valid

/-- compare_responses (src/server/src/connections/client.rs, lines
245-295).  The outer Option models panic-freedom (none = the connection
thread panicked inside the merge); the inner Option is the function's
return value.  The source's match lists arms only for Any/One,
Two/Three/Quorum and All; the embedding returns none for the remaining
levels. -/
def compareResponses (responses : List (Option Rows))
    (cl : ConsistencyLevel) : Option (Option Rows) :=
  let valid := responses.filterMap id
  if valid.isEmpty then some none
  else
    match cl with
    | .any | .one => some valid.head?
    | .two | .three | .quorum =>
        countOrMerge (if cl = .quorum then valid.length / 2 + 1 else cl.toU16)
          valid
    | .all =>
        if valid.all (fun r => r == valid.headD []) then
          some (some (valid.headD []))
        else mergeOrValue valid
    | _ => none

/-- The per-index maximum scan of get_nodes_updates (read_repair.rs,
lines 80-85): walk all responses, replacing the candidate when res[i]'s
last element is greater; a missing row or last element is a panic. -/
def maxByLast (i : Nat) (cur : OutRow) : List Rows → Option OutRow
  | [] => some cur
  | res :: rest =>
      match res.get? i, cur.getLast? with
      | some row, some curLast =>
          match row.getLast? with
          | some rowLast =>
              if strLt curLast rowLast then maxByLast i row rest
              else maxByLast i cur rest
          | none => none
      | _, _ => none

/-- The update-pushing pass of get_nodes_updates (read_repair.rs, lines
86-91): each response whose first row's last element differs from the
maximum gets the maximum row appended to its update list. -/
def pushUpdates (maxRow : OutRow) :
    List Rows → List Rows → Option (List Rows)
  | [], [] => some []
  | response :: rs, u :: us =>
      match response.get? 0, maxRow.getLast? with
      | some r0, some ml =>
          match r0.getLast? with
          | some r0l =>
              match pushUpdates maxRow rs us with
              | none => none
              | some rest =>
                  some ((if r0l ≠ ml then u ++ [maxRow] else u) :: rest)
          | none => none
      | _, _ => none
  | _, _ => none

/-- One iteration i of the outer loop of get_nodes_updates. -/
def gnuStep (responses : List Rows) (updates : List Rows) (i : Nat) :
    Option (List Rows) :=
  match responses.head? with
  | none => none
  | some first =>
      match first.get? i with
      | none => none
      | some cur =>
          match maxByLast i cur responses with
          | none => none
          | some maxRow => pushUpdates maxRow responses updates

/-- The outer loop of get_nodes_updates, counting i upward. -/
def gnuLoop (responses : List Rows) :
    List Rows → Nat → Nat → Option (List Rows)
  | updates, _, 0 => some updates
  | updates, i, c + 1 =>
      match gnuStep responses updates i with
      | none => none
      | some u2 => gnuLoop responses u2 (i + 1) c

/-- get_nodes_updates (src/server/src/connections/read_repair.rs, lines
77-94): iterate i over 0..responses[0].len(), find the per-index maximum
by trailing last_update and push it onto the updates of every diverging
response; responses[0] on an empty list is itself a panic (none). -/
def getNodesUpdates (responses : List Rows) : Option (List Rows) :=
  match responses.head? with
  | none => none
  | some first =>
      gnuLoop responses (List.replicate responses.length []) 0 first.length

theorem mergeRowsAux_total (response : List OutRow) (res : Rows) (idx : Nat)
    (hidx : idx + response.length ≤ res.length)
    (hres : ∀ r ∈ res, r ≠ []) (hresp : ∀ r ∈ response, r ≠ []) :
    ∃ res2, mergeRowsAux res idx response = some res2 ∧
      res2.length = res.length ∧ ∀ r ∈ res2, r ≠ [] := by
  induction response generalizing res idx with
  | nil => exact ⟨res, rfl, rfl, hres⟩
  | cons row rest ih =>
    have hlt : idx < res.length := by
      simp only [List.length_cons] at hidx
      omega
    have hget : res.get? idx = some (res.get ⟨idx, hlt⟩) :=
      List.get?_eq_get hlt
    have hcurne : res.get ⟨idx, hlt⟩ ≠ [] := hres _ (res.get_mem _ _)
    have hrowne : row ≠ [] := hresp row (by simp)
    obtain ⟨cl, hcl⟩ := Option.isSome_iff_exists.mp
      (List.getLast?_isSome.mpr hcurne)
    obtain ⟨rl, hrl⟩ := Option.isSome_iff_exists.mp
      (List.getLast?_isSome.mpr hrowne)
    have hstep : ∃ res2, mergeRow res idx row = some res2 ∧
        res2.length = res.length ∧ ∀ r ∈ res2, r ≠ [] := by
      refine ⟨if strLt cl rl then res.set idx row else res, ?_, ?_, ?_⟩
      · simp only [mergeRow, hget, hrl, hcl]
      · by_cases h : strLt cl rl = true <;> simp [h]
      · by_cases h : strLt cl rl = true
        · simp only [if_pos h]
          intro r hr
          rcases List.mem_or_eq_of_mem_set hr with hmem | heq
          · exact hres r hmem
          · rw [heq]; exact hrowne
        · simp only [if_neg h]
          exact hres
    obtain ⟨res2, hmr, hlen2, hne2⟩ := hstep
    have hidx2 : (idx + 1) + rest.length ≤ res2.length := by
      rw [hlen2]
      simp only [List.length_cons] at hidx
      omega
    obtain ⟨res3, hrec, hlen3, hne3⟩ :=
      ih res2 (idx + 1) hidx2 hne2 (fun r hr => hresp r (by simp [hr]))
    exact ⟨res3, by simp [mergeRowsAux, hmr, hrec], by rw [hlen3, hlen2],
      hne3⟩

theorem mergeLatest_total (rest : List Rows) (first : Rows) (k : Nat)
    (hf : first.length = k) (hfr : ∀ r ∈ first, r ≠ [])
    (hrest : ∀ resp ∈ rest, resp.length = k ∧ ∀ r ∈ resp, r ≠ []) :
    (mergeLatest first rest).isSome := by
  induction rest generalizing first with
  | nil => rfl
  | cons response tail ih =>
    obtain ⟨hrl, hrne⟩ := hrest response (by simp)
    have hidx : 0 + response.length ≤ first.length := by omega
    obtain ⟨f2, hmr, hlen2, hne2⟩ :=
      mergeRowsAux_total response first 0 hidx hfr hrne
    have := ih f2 (by rw [hlen2, hf]) hne2
      (fun resp hr => hrest resp (by simp [hr]))
    simp only [mergeLatest, hmr]
    exact this

theorem mergeOrValue_isSome (valid : List Rows)
    (hmerge : (mergeLatest (valid.headD []) valid.tail).isSome) :
    (mergeOrValue valid).isSome := by
  obtain ⟨m, hm⟩ := Option.isSome_iff_exists.mp hmerge
  unfold mergeOrValue
  rw [hm]
  rfl

theorem countOrMerge_isSome (target : Nat) (valid : List Rows)
    (hmerge : (mergeLatest (valid.headD []) valid.tail).isSome) :
    (countOrMerge target valid).isSome := by
  unfold countOrMerge
  cases hcount : countFirstReaching target valid [] with
  | some r => rfl
  | none => exact mergeOrValue_isSome valid hmerge

theorem compareResponses_total (responses : List (Option Rows))
    (cl : ConsistencyLevel) (k : Nat)
    (hcl : cl ∈ [ConsistencyLevel.any, .one, .two, .three, .quorum, .all])
    (hlen : ∀ r ∈ responses.filterMap id, r.length = k)
    (hne : ∀ r ∈ responses.filterMap id, ∀ row ∈ r, row ≠ []) :
    (compareResponses responses cl).isSome := by
  unfold compareResponses
  by_cases hv : (responses.filterMap id).isEmpty
  · simp [hv]
  · simp only [hv, if_false]
    have hmerge : (mergeLatest ((responses.filterMap id).headD [])
        (responses.filterMap id).tail).isSome := by
      cases hval : responses.filterMap id with
      | nil => rw [hval] at hv; simp at hv
      | cons v0 vt =>
        simp only [List.headD_cons, List.tail_cons]
        refine mergeLatest_total vt v0 k ?_ ?_ ?_
        · exact hlen v0 (by rw [hval]; simp)
        · exact hne v0 (by rw [hval]; simp)
        · intro resp hr
          refine ⟨hlen resp (by rw [hval]; simp [hr]),
            hne resp (by rw [hval]; simp [hr])⟩
    simp only [List.mem_cons, List.not_mem_nil, or_false] at hcl
    rcases hcl with rfl | rfl | rfl | rfl | rfl | rfl
    · rfl
    · rfl
    · exact countOrMerge_isSome _ _ hmerge
    · exact countOrMerge_isSome _ _ hmerge
    · exact countOrMerge_isSome _ _ hmerge
    · show (if (responses.filterMap id).all
          (fun r => r == (responses.filterMap id).headD []) = true then
          some (some ((responses.filterMap id).headD []))
        else mergeOrValue (responses.filterMap id)).isSome = true
      by_cases hall : (responses.filterMap id).all
          (fun r => r == (responses.filterMap id).headD []) = true
      · rw [if_pos hall]
        rfl
      · rw [if_neg hall]
        exact mergeOrValue_isSome _ hmerge

theorem maxByLast_total (rs : List Rows) (i : Nat) (cur : OutRow)
    (hcur : cur ≠ [])
    (h : ∀ r ∈ rs, i < r.length ∧ ∀ row ∈ r, row ≠ []) :
    ∃ m, maxByLast i cur rs = some m ∧ m ≠ [] := by
  induction rs generalizing cur with
  | nil => exact ⟨cur, rfl, hcur⟩
  | cons res rest ih =>
    obtain ⟨hi, hrows⟩ := h res (by simp)
    have hget : res.get? i = some (res.get ⟨i, hi⟩) := List.get?_eq_get hi
    have hrowne : res.get ⟨i, hi⟩ ≠ [] := hrows _ (res.get_mem _ _)
    obtain ⟨cl, hcl⟩ := Option.isSome_iff_exists.mp
      (List.getLast?_isSome.mpr hcur)
    obtain ⟨rl, hrl⟩ := Option.isSome_iff_exists.mp
      (List.getLast?_isSome.mpr hrowne)
    have hrest : ∀ r ∈ rest, i < r.length ∧ ∀ row ∈ r, row ≠ [] :=
      fun r hr => h r (by simp [hr])
    by_cases hlt : strLt cl rl = true
    · obtain ⟨m, hm, hmne⟩ := ih (res.get ⟨i, hi⟩) hrowne hrest
      refine ⟨m, ?_, hmne⟩
      simp only [maxByLast, hget, hcl, hrl, if_pos hlt]
      exact hm
    · obtain ⟨m, hm, hmne⟩ := ih cur hcur hrest
      refine ⟨m, ?_, hmne⟩
      simp only [maxByLast, hget, hcl, hrl, if_neg hlt]
      exact hm

theorem pushUpdates_total (maxRow : OutRow) (hm : maxRow ≠ [])
    (rs us : List Rows) (hlen : rs.length = us.length)
    (h : ∀ r ∈ rs, 0 < r.length ∧ ∀ row ∈ r, row ≠ []) :
    ∃ out, pushUpdates maxRow rs us = some out ∧ out.length = us.length := by
  induction rs generalizing us with
  | nil =>
    cases us with
    | nil => exact ⟨[], rfl, rfl⟩
    | cons u us => simp at hlen
  | cons response rs ih =>
    cases us with
    | nil => simp at hlen
    | cons u us =>
      obtain ⟨h0, hrows⟩ := h response (by simp)
      have hget : response.get? 0 = some (response.get ⟨0, h0⟩) :=
        List.get?_eq_get h0
      have hr0ne : response.get ⟨0, h0⟩ ≠ [] := hrows _ (response.get_mem _ _)
      obtain ⟨ml, hml⟩ := Option.isSome_iff_exists.mp
        (List.getLast?_isSome.mpr hm)
      obtain ⟨r0l, hr0l⟩ := Option.isSome_iff_exists.mp
        (List.getLast?_isSome.mpr hr0ne)
      have hlen2 : rs.length = us.length := by simpa using hlen
      obtain ⟨rest, hrest, hrl⟩ := ih us hlen2
        (fun r hr => h r (by simp [hr]))
      refine ⟨(if r0l ≠ ml then u ++ [maxRow] else u) :: rest, ?_, ?_⟩
      · simp only [pushUpdates, hget, hml, hr0l, hrest]
      · simp [hrl]

theorem gnuLoop_total (responses : List Rows) (k : Nat)
    (hne : responses ≠ [])
    (hk : ∀ r ∈ responses, r.length = k)
    (hrows : ∀ r ∈ responses, ∀ row ∈ r, row ≠ []) :
    ∀ (c i : Nat) (updates : List Rows), i + c ≤ k →
      updates.length = responses.length →
      (gnuLoop responses updates i c).isSome := by
  intro c
  induction c with
  | zero => intro i updates _ _; rfl
  | succ c ih =>
    intro i updates hik hulen
    have hik2 : i < k := by omega
    obtain ⟨first, rest, hfr⟩ : ∃ f r, responses = f :: r := by
      cases responses with
      | nil => exact absurd rfl hne
      | cons f r => exact ⟨f, r, rfl⟩
    have hfk : first.length = k := hk first (by rw [hfr]; simp)
    have hgetf : first.get? i = some (first.get ⟨i, by omega⟩) :=
      List.get?_eq_get (by omega)
    have hcurne : first.get ⟨i, by omega⟩ ≠ [] :=
      hrows first (by rw [hfr]; simp) _ (first.get_mem _ _)
    obtain ⟨maxRow, hmax, hmaxne⟩ := maxByLast_total responses i
      (first.get ⟨i, by omega⟩) hcurne
      (fun r hr => ⟨by rw [hk r hr]; omega, hrows r hr⟩)
    obtain ⟨out, hpush, hplen⟩ := pushUpdates_total maxRow hmaxne
      responses updates (by omega)
      (fun r hr => ⟨by rw [hk r hr]; omega, hrows r hr⟩)
    have hstep : gnuStep responses updates i = some out := by
      rw [hfr] at hgetf ⊢
      simp only [gnuStep, List.head?_cons, hgetf]
      rw [← hfr] at hgetf ⊢
      simp only [hmax, hpush]
    simp only [gnuLoop, hstep]
    exact ih (i + 1) out (by omega) (by omega)

/-- C10: compare_responses and get_nodes_updates are total only under the
precondition that every successful Some-response has the same number of
rows and every row is non-empty; with responses of different row counts
(or an empty row) the merge indexes past the shorter response or unwraps a
missing last element and the connection thread panics (modelled none), as
the two concrete inputs show. -/
theorem c10_reconciliation_totality :
    (∀ (responses : List (Option Rows)) (cl : ConsistencyLevel) (k : Nat),
      cl ∈ [ConsistencyLevel.any, .one, .two, .three, .quorum, .all] →
      (∀ r ∈ responses.filterMap id, r.length = k) →
      (∀ r ∈ responses.filterMap id, ∀ row ∈ r, row ≠ []) →
      (compareResponses responses cl).isSome) ∧
    (∀ (responses : List Rows) (k : Nat), responses ≠ [] →
      (∀ r ∈ responses, r.length = k) →
      (∀ r ∈ responses, ∀ row ∈ r, row ≠ []) →
      (getNodesUpdates responses).isSome) ∧
    compareResponses [some [], some [["b"]]] .two = none ∧
    getNodesUpdates [[["b"]], []] = none := by
  refine ⟨compareResponses_total, ?_, by decide, by decide⟩
  intro responses k hne hk hrows
  obtain ⟨first, rest, hfr⟩ : ∃ f r, responses = f :: r := by
    cases responses with
    | nil => exact absurd rfl hne
    | cons f r => exact ⟨f, r, rfl⟩
  have hfk : first.length = k := hk first (by rw [hfr]; simp)
  have hloop := gnuLoop_total responses k hne hk hrows first.length 0
    (List.replicate responses.length []) (by omega)
    (by simp)
  rw [hfr]
  simp only [getNodesUpdates, List.head?_cons]
  rw [← hfr]
  exact hloop

/-- Witness for C10 at concrete inputs: three equal-length single-row
responses reconcile without panic at Quorum, and read-repair diffing of
two well-formed responses is total. -/
theorem c10_reconciliation_totality_witness :
    (compareResponses [some [["a", "t1"]], some [["a", "t2"]],
      some [["a", "t1"]]] .quorum).isSome = true ∧
    (getNodesUpdates [[["a", "t1"]], [["a", "t2"]]]).isSome = true := by
  constructor
  · exact c10_reconciliation_totality.1
      [some [["a", "t1"]], some [["a", "t2"]], some [["a", "t1"]]]
      .quorum 1 (by decide) (by decide) (by decide)
  · exact c10_reconciliation_totality.2.1
      [[["a", "t1"]], [["a", "t2"]]] 1 (by decide) (by decide) (by decide)

/- ----------------------------------------------------------------- -/
/- C9: client wire codec (byte streams as lists of byte values)       -/
/- ----------------------------------------------------------------- -/

/-- A byte stream; every value written by the embedded writers is < 256. -/
abbrev ByteSeq := List Nat

/-- Big-endian u16 write; `x as u16` truncates, hence the explicit mod. -/
def w16 (n : Nat) : ByteSeq := [n % 65536 / 256, n % 256]

/-- Big-endian u32 write with the same truncation. -/
def w32 (n : Nat) : ByteSeq :=
  [n % 2 ^ 32 / 2 ^ 24, n % 2 ^ 24 / 2 ^ 16, n % 2 ^ 16 / 2 ^ 8, n % 256]

/-- Big-endian u16 read (read_exact of 2 bytes). -/
def r16 : ByteSeq → Option (Nat × ByteSeq)
  | b0 :: b1 :: rest => some (b0 * 256 + b1, rest)
  | _ => none

/-- Big-endian u32 read (read_exact of 4 bytes). -/
def r32 : ByteSeq → Option (Nat × ByteSeq)
  | b0 :: b1 :: b2 :: b3 :: rest =>
      some (((b0 * 256 + b1) * 256 + b2) * 256 + b3, rest)
  | _ => none

/-- Single byte read. -/
def r8 : ByteSeq → Option (Nat × ByteSeq)
  | b :: rest => some (b, rest)
  | _ => none

/-- read_exact of n bytes. -/
def rExact (n : Nat) (s : ByteSeq) : Option (ByteSeq × ByteSeq) :=
  if n ≤ s.length then some (s.take n, s.drop n) else none

theorem r16_w16 (n : Nat) (rest : ByteSeq) :
    r16 (w16 n ++ rest) = some (n % 65536, rest) := by
  simp only [w16, List.cons_append, List.nil_append, r16,
    Option.some.injEq, Prod.mk.injEq]
  exact ⟨by omega, trivial⟩

theorem r32_w32 (n : Nat) (rest : ByteSeq) :
    r32 (w32 n ++ rest) = some (n % 2 ^ 32, rest) := by
  simp only [w32, List.cons_append, List.nil_append, r32,
    Option.some.injEq, Prod.mk.injEq]
  exact ⟨by omega, trivial⟩

theorem rExact_append (s t : ByteSeq) :
    rExact s.length (s ++ t) = some (s, t) := by
  unfold rExact
  rw [if_pos (by simp)]
  rw [List.take_left, List.drop_left]

/-- write_string (src/native/src/native_protocol/parsers/string.rs, lines
30-34): a u16 length prefix — string.len() as u16, which truncates mod
2^16 — followed by all the string's bytes.  Strings are modelled by their
UTF-8 byte lists (Rust guarantees validity, making from_utf8 on read-back
succeed, so the codec is byte-list identity at this level). -/
def write_string (s : ByteSeq) : ByteSeq := w16 s.length ++ s

/-- read_string (string.rs, lines 9-22): u16 length then that many bytes. -/
def read_string (b : ByteSeq) : Option (ByteSeq × ByteSeq) :=
  match r16 b with
  | none => none
  | some (n, rest) => rExact n rest

theorem read_write_string (s t : ByteSeq) (hlen : s.length < 65536) :
    read_string (write_string s ++ t) = some (s, t) := by
  unfold write_string read_string
  rw [List.append_assoc]
  simp only [r16_w16, Nat.mod_eq_of_lt hlen]
  exact rExact_append s t

/-- write_long_string (parsers/long_string.rs, lines 30-34): u32 length,
string.len() as u32, then the bytes. -/
def write_long_string (s : ByteSeq) : ByteSeq := w32 s.length ++ s

/-- read_long_string (long_string.rs, lines 9-22). -/
def read_long_string (b : ByteSeq) : Option (ByteSeq × ByteSeq) :=
  match r32 b with
  | none => none
  | some (n, rest) => rExact n rest

theorem read_write_long_string (s t : ByteSeq) (hlen : s.length < 2 ^ 32) :
    read_long_string (write_long_string s ++ t) = some (s, t) := by
  unfold write_long_string read_long_string
  rw [List.append_assoc]
  simp only [r32_w32, Nat.mod_eq_of_lt hlen]
  exact rExact_append s t

/-- A string map as the ordered list of its entries (the HashMap's
iteration order at write time; read-back inserts in stream order, so at
this level the codec is list identity). -/
abbrev StrMap := List (ByteSeq × ByteSeq)

/-- The entry loop of write_string_map (parsers/string_map.rs, lines
46-49). -/
def writePairs : StrMap → ByteSeq
  | [] => []
  | (k, v) :: rest => write_string k ++ write_string v ++ writePairs rest

/-- write_string_map (string_map.rs, lines 40-51): u16 entry count, then
each key and value as [string]. -/
def write_string_map (m : StrMap) : ByteSeq := w16 m.length ++ writePairs m

/-- The entry loop of read_string_map (string_map.rs, lines 22-28). -/
def readPairs : Nat → ByteSeq → Option (StrMap × ByteSeq)
  | 0, b => some ([], b)
  | n + 1, b =>
      match read_string b with
      | none => none
      | some (k, b1) =>
          match read_string b1 with
          | none => none
          | some (v, b2) =>
              match readPairs n b2 with
              | none => none
              | some (m, b3) => some ((k, v) :: m, b3)

/-- read_string_map (string_map.rs, lines 16-30). -/
def read_string_map (b : ByteSeq) : Option (StrMap × ByteSeq) :=
  match r16 b with
  | none => none
  | some (n, rest) => readPairs n rest

theorem readPairs_writePairs (m : StrMap) (t : ByteSeq)
    (hb : ∀ kv ∈ m, kv.1.length < 65536 ∧ kv.2.length < 65536) :
    readPairs m.length (writePairs m ++ t) = some (m, t) := by
  induction m with
  | nil => rfl
  | cons kv rest ih =>
    obtain ⟨k, v⟩ := kv
    obtain ⟨hk, hv⟩ := hb (k, v) (by simp)
    have ihr := ih (fun kv hkv => hb kv (by simp [hkv]))
    have h1 := read_write_string k (write_string v ++ (writePairs rest ++ t)) hk
    have h2 := read_write_string v (writePairs rest ++ t) hv
    simp only [List.length_cons, writePairs, readPairs, List.append_assoc,
      h1, h2, ihr]

theorem read_write_string_map (m : StrMap) (t : ByteSeq)
    (hn : m.length < 65536)
    (hb : ∀ kv ∈ m, kv.1.length < 65536 ∧ kv.2.length < 65536) :
    read_string_map (write_string_map m ++ t) = some (m, t) := by
  unfold write_string_map read_string_map
  rw [List.append_assoc]
  simp only [r16_w16, Nat.mod_eq_of_lt hn]
  exact readPairs_writePairs m t hb

/-- UTF-8/codepoint bytes of an ASCII literal, for the protocol's fixed
key strings. -/
def strBytes (s : String) : ByteSeq := s.data.map Char.toNat

/-- The startup keys the writer keeps (requests/startup.rs, lines 75-84). -/
def recognizedKeys : List ByteSeq :=
  [strBytes "CQL_VERSION", strBytes "COMPRESSION", strBytes "NO_COMPACT",
   strBytes "THROW_ON_OVERLOAD"]

/-- write_startup (src/native/src/native_protocol/requests/startup.rs,
lines 57-89), body only (the u32 body-length prefix written at line 86
belongs to the frame and is consumed before read_startup runs):
CQL_VERSION must be present and equal "3.0.0", and only the recognized
keys survive the filter at lines 75-84. -/
def write_startup (m : StrMap) : Option ByteSeq :=
  match m.lookup (strBytes "CQL_VERSION") with
  | none => none
  | some v =>
      if v = strBytes "3.0.0" then
        some (write_string_map
          (m.filter (fun kv => recognizedKeys.contains kv.1)))
      else none

/-- read_startup (startup.rs, lines 20-39) on an exact body buffer: parse
the string map (the read ≤ length check cannot fail on an exact buffer)
and require CQL_VERSION = "3.0.0". -/
def read_startup (b : ByteSeq) : Option StrMap :=
  match read_string_map b with
  | none => none
  | some (m, _) =>
      match m.lookup (strBytes "CQL_VERSION") with
      | none => none
      | some v => if v = strBytes "3.0.0" then some m else none

theorem read_write_startup (m : StrMap) (bs : ByteSeq)
    (hrec : ∀ kv ∈ m, kv.1 ∈ recognizedKeys)
    (hcql : m.lookup (strBytes "CQL_VERSION") = some (strBytes "3.0.0"))
    (hn : m.length < 65536)
    (hb : ∀ kv ∈ m, kv.1.length < 65536 ∧ kv.2.length < 65536)
    (hw : write_startup m = some bs) :
    read_startup bs = some m := by
  unfold write_startup at hw
  simp only [hcql, if_true] at hw
  have hfilter : m.filter (fun kv => recognizedKeys.contains kv.1) = m := by
    apply List.filter_eq_self.mpr
    intro kv hkv
    exact List.elem_eq_true_of_mem (hrec kv hkv)
  rw [hfilter] at hw
  injection hw with hw
  subst hw
  have hmap := read_write_string_map m [] hn hb
  rw [List.append_nil] at hmap
  unfold read_startup
  simp only [hmap, hcql, if_true]

/-- Frame opcodes of the client protocol (header.rs, lines 22-36). -/
inductive Opcode where
  | error | startup | ready | authenticate | options | supported
  | query | resultOP | prepare | execute | authChallenge | authResponse
  | authSuccess
deriving DecidableEq, Repr

/-- Opcode::to_be_bytes (header.rs, lines 82-98). -/
def Opcode.code : Opcode → Nat
  | .error => 0x00
  | .startup => 0x01
  | .ready => 0x02
  | .authenticate => 0x03
  | .options => 0x05
  | .supported => 0x06
  | .query => 0x07
  | .resultOP => 0x08
  | .prepare => 0x09
  | .execute => 0x0A
  | .authChallenge => 0x0E
  | .authResponse => 0x0F
  | .authSuccess => 0x10

/-- Opcode::new (header.rs, lines 60-80). -/
def Opcode.fromCode : Nat → Option Opcode
  | 0x00 => some .error
  | 0x01 => some .startup
  | 0x02 => some .ready
  | 0x03 => some .authenticate
  | 0x05 => some .options
  | 0x06 => some .supported
  | 0x07 => some .query
  | 0x08 => some .resultOP
  | 0x09 => some .prepare
  | 0x0A => some .execute
  | 0x0E => some .authChallenge
  | 0x0F => some .authResponse
  | 0x10 => some .authSuccess
  | _ => none

theorem fromCode_code (op : Opcode) : Opcode.fromCode op.code = some op := by
  cases op <;> rfl

/-- The request-opcode list of read_header (header.rs, lines 164-171). -/
def Opcode.isReq (op : Opcode) : Bool :=
  [Opcode.startup, .authResponse, .options, .query, .prepare,
    .execute].contains op

/-- The response-opcode list of read_header (header.rs, lines 172-180). -/
def Opcode.isResp (op : Opcode) : Bool :=
  [Opcode.error, .ready, .authenticate, .supported, .resultOP,
    .authChallenge, .authSuccess].contains op

/-- A frame header (header.rs, lines 101-107): version and flag bytes, a
u16 stream id and the opcode. -/
structure Header where
  version : Nat
  flag : Nat
  stream : Nat
  opcode : Opcode
deriving DecidableEq, Repr

/-- Header::write_header (header.rs, lines 202-216). -/
def write_header (h : Header) : ByteSeq :=
  h.version :: h.flag :: (w16 h.stream ++ [h.opcode.code])

/-- Header::read_header (header.rs, lines 147-200): five bytes; the
version must be 0x04 or 0x84, the opcode must decode, and its direction
must match the version. -/
def read_header : ByteSeq → Option (Header × ByteSeq)
  | v :: f :: s0 :: s1 :: op :: rest =>
      if v ≠ 4 ∧ v ≠ 132 then none
      else
        match Opcode.fromCode op with
        | none => none
        | some opcode =>
            if v = 4 ∧ opcode.isReq = false then none
            else if v = 132 ∧ opcode.isResp = false then none
            else some (⟨v, f, s0 * 256 + s1, opcode⟩, rest)
  | _ => none

theorem read_write_header (h : Header) (t : ByteSeq)
    (hv : (h.version = 4 ∧ h.opcode.isReq = true) ∨
      (h.version = 132 ∧ h.opcode.isResp = true))
    (hs : h.stream < 65536) :
    read_header (write_header h ++ t) = some (h, t) := by
  obtain ⟨version, flag, stream, opcode⟩ := h
  simp only [write_header, w16, List.cons_append, List.nil_append,
    List.append_assoc]
  simp only at hv hs
  rcases hv with ⟨hv4, hreq⟩ | ⟨hv132, hresp⟩
  · subst hv4
    simp only [read_header, fromCode_code]
    rw [if_neg (by simp)]
    rw [if_neg (by simp [hreq])]
    rw [if_neg (by simp)]
    simp only [Option.some.injEq, Prod.mk.injEq, Header.mk.injEq,
      and_true, true_and]
    omega
  · subst hv132
    simp only [read_header, fromCode_code]
    rw [if_neg (by simp)]
    rw [if_neg (by simp)]
    rw [if_neg (by simp [hresp])]
    simp only [Option.some.injEq, Prod.mk.injEq, Header.mk.injEq,
      and_true, true_and]
    omega

/-- ConsistencyLevel::from_u16 (models/consistency.rs, lines 38-56). -/
def ConsistencyLevel.fromU16 : Nat → Option ConsistencyLevel
  | 0 => some .any
  | 1 => some .one
  | 2 => some .two
  | 3 => some .three
  | 4 => some .quorum
  | 5 => some .all
  | 6 => some .localQuorum
  | 7 => some .eachQuorum
  | 8 => some .serial
  | 9 => some .localSerial
  | 10 => some .localOne
  | _ => none

theorem fromU16_toU16 (cl : ConsistencyLevel) :
    ConsistencyLevel.fromU16 cl.toU16 = some cl := by
  cases cl <;> rfl

theorem toU16_lt (cl : ConsistencyLevel) : cl.toU16 < 65536 := by
  cases cl <;> decide

/-- write_query (requests/query.rs, lines 46-60): [long_string] query,
u16 consistency (the enum discriminant, line 54) and the flags byte. -/
def write_query (q : ByteSeq) (cl : ConsistencyLevel) (flags : Nat) :
    ByteSeq :=
  write_long_string q ++ w16 cl.toU16 ++ [flags % 256]

/-- read_query (requests/query.rs, lines 22-44): parse the long string,
the consistency code and the flags byte.  QueryMsg::new
(models/query.rs, lines 24-38) stores these three verbatim; the parsed
query it also carries is process_query of the string, deterministic, so
the triple determines the QueryMsg. -/
def read_query (b : ByteSeq) :
    Option ((ByteSeq × ConsistencyLevel × Nat) × ByteSeq) :=
  match read_long_string b with
  | none => none
  | some (q, b1) =>
      match r16 b1 with
      | none => none
      | some (c, b2) =>
          match ConsistencyLevel.fromU16 c with
          | none => none
          | some cl =>
              match r8 b2 with
              | none => none
              | some (flags, b3) => some ((q, cl, flags), b3)

theorem read_write_query (q : ByteSeq) (cl : ConsistencyLevel)
    (flags : Nat) (t : ByteSeq) (hq : q.length < 2 ^ 32)
    (hf : flags < 256) :
    read_query (write_query q cl flags ++ t) = some ((q, cl, flags), t) := by
  unfold write_query read_query
  rw [List.append_assoc, List.append_assoc]
  simp only [read_write_long_string q _ hq]
  simp only [r16_w16, Nat.mod_eq_of_lt (toU16_lt cl), fromU16_toU16]
  simp only [List.cons_append, List.nil_append, r8,
    Nat.mod_eq_of_lt hf]

/-- The column datatype codes of a RESULT body
(responses/result_op.rs, lines 10-42). -/
inductive DataTypeFlags where
  | boolean | float | int | varchar | timestamp | inet
deriving DecidableEq, Repr

/-- DataTypeFlags::to_be_bytes codes (result_op.rs, lines 32-41). -/
def DataTypeFlags.code : DataTypeFlags → Nat
  | .boolean => 0x04
  | .float => 0x08
  | .int => 0x09
  | .varchar => 0x0D
  | .timestamp => 0x0B
  | .inet => 0x10

/-- DataTypeFlags::new (result_op.rs, lines 21-31). -/
def DataTypeFlags.fromCode : Nat → Option DataTypeFlags
  | 0x04 => some .boolean
  | 0x08 => some .float
  | 0x09 => some .int
  | 0x0B => some .timestamp
  | 0x0D => some .varchar
  | 0x10 => some .inet
  | _ => none

theorem dtFromCode_code (dt : DataTypeFlags) :
    DataTypeFlags.fromCode dt.code = some dt := by
  cases dt <;> rfl

theorem dtCode_lt (dt : DataTypeFlags) : dt.code < 65536 := by
  cases dt <;> decide

/-- A column spec of a RESULT body (result_op.rs, lines 44-48). -/
structure ColumnSpec where
  name : ByteSeq
  dataType : DataTypeFlags
deriving DecidableEq, Repr

/-- ColumnSpec::write (result_op.rs, lines 68-74). -/
def writeColumnSpec (cs : ColumnSpec) : ByteSeq :=
  write_string cs.name ++ w16 cs.dataType.code

/-- ColumnSpec::read (result_op.rs, lines 55-66). -/
def readColumnSpec (b : ByteSeq) : Option (ColumnSpec × ByteSeq) :=
  match read_string b with
  | none => none
  | some (name, b1) =>
      match r16 b1 with
      | none => none
      | some (c, b2) =>
          match DataTypeFlags.fromCode c with
          | none => none
          | some dt => some (⟨name, dt⟩, b2)

theorem read_write_columnSpec (cs : ColumnSpec) (t : ByteSeq)
    (hname : cs.name.length < 65536) :
    readColumnSpec (writeColumnSpec cs ++ t) = some (cs, t) := by
  obtain ⟨name, dt⟩ := cs
  unfold writeColumnSpec readColumnSpec
  rw [List.append_assoc]
  simp only at hname
  simp only [read_write_string name _ hname]
  simp only [r16_w16, Nat.mod_eq_of_lt (dtCode_lt dt), dtFromCode_code]

/-- The column-spec loop of RowMetadata::read (result_op.rs, lines
155-159). -/
def readColumnSpecs : Nat → ByteSeq → Option (List ColumnSpec × ByteSeq)
  | 0, b => some ([], b)
  | n + 1, b =>
      match readColumnSpec b with
      | none => none
      | some (cs, b1) =>
          match readColumnSpecs n b1 with
          | none => none
          | some (l, b2) => some (cs :: l, b2)

theorem readColumnSpecs_write (specs : List ColumnSpec) (t : ByteSeq)
    (hb : ∀ cs ∈ specs, cs.name.length < 65536) :
    readColumnSpecs specs.length ((specs.map writeColumnSpec).flatten ++ t) =
      some (specs, t) := by
  induction specs with
  | nil => rfl
  | cons cs rest ih =>
    have hcs := hb cs (by simp)
    have ihr := ih (fun c hc => hb c (by simp [hc]))
    simp only [List.length_cons, List.map_cons, List.flatten_cons,
      List.append_assoc, readColumnSpecs]
    rw [read_write_columnSpec cs _ hcs]
    simp only [ihr]

/-- Row metadata of a RESULT body (result_op.rs, lines 83-90).  flags and
columns_count are i32 on the wire; written values are non-negative, so
the embedding carries their 32-bit patterns as Nat. -/
structure RowMetadata where
  flags : Nat
  columnsCount : Nat
  globalTableSpec : Option (ByteSeq × ByteSeq)
  columnSpecs : Option (List ColumnSpec)
deriving DecidableEq, Repr

/-- RowMetadata::write (result_op.rs, lines 183-213): flags and count,
then — when flags has the GlobalTablesSpec bit (0x1) — the keyspace and
table names and one spec per column (missing data is an error, none);
when the bit is absent the NoMetadata bit (0x4) must be set, and nothing
more is written. -/
def writeRowMetadata (m : RowMetadata) : Option ByteSeq :=
  if m.flags % 2 = 1 then
    match m.globalTableSpec with
    | none => none
    | some (ks, tb) =>
        match m.columnSpecs with
        | none => none
        | some specs =>
            some (w32 m.flags ++ w32 m.columnsCount ++ write_string ks ++
              write_string tb ++ (specs.map writeColumnSpec).flatten)
  else if m.flags / 4 % 2 ≠ 1 then none
  else some (w32 m.flags ++ w32 m.columnsCount)

/-- RowMetadata::read (result_op.rs, lines 133-181), mirroring the same
flag analysis. -/
def readRowMetadata (b : ByteSeq) : Option (RowMetadata × ByteSeq) :=
  match r32 b with
  | none => none
  | some (flags, b1) =>
      match r32 b1 with
      | none => none
      | some (cnt, b2) =>
          if flags % 2 = 1 then
            match read_string b2 with
            | none => none
            | some (ks, b3) =>
                match read_string b3 with
                | none => none
                | some (tb, b4) =>
                    match readColumnSpecs cnt b4 with
                    | none => none
                    | some (specs, b5) =>
                        some (⟨flags, cnt, some (ks, tb), some specs⟩, b5)
          else if flags / 4 % 2 ≠ 1 then none
          else some (⟨flags, cnt, none, none⟩, b2)

/-- Well-formedness of metadata as produced by the writer: bounded wire
fields and the flag/payload agreement RowMetadata::new enforces
(result_op.rs, lines 92-131). -/
def RowMetadata.wf (m : RowMetadata) : Prop :=
  m.flags < 2 ^ 32 ∧ m.columnsCount < 2 ^ 32 ∧
  ((m.flags % 2 = 1 ∧ ∃ ks tb specs, m.globalTableSpec = some (ks, tb) ∧
      m.columnSpecs = some specs ∧ ks.length < 65536 ∧ tb.length < 65536 ∧
      specs.length = m.columnsCount ∧
      ∀ cs ∈ specs, cs.name.length < 65536) ∨
   (m.flags % 2 = 0 ∧ m.flags / 4 % 2 = 1 ∧ m.globalTableSpec = none ∧
      m.columnSpecs = none))

theorem read_write_rowMetadata (m : RowMetadata) (bs t : ByteSeq)
    (hwf : m.wf) (hw : writeRowMetadata m = some bs) :
    readRowMetadata (bs ++ t) = some (m, t) := by
  obtain ⟨flags, cnt, gts, specsOpt⟩ := m
  obtain ⟨hflags, hcnt, hcase⟩ := hwf
  simp only at hflags hcnt
  rcases hcase with ⟨hbit, ks, tb, specs, hgts, hspecs, hks, htb, hslen,
      hsb⟩ | ⟨hbit, hnm, hgts, hspecs⟩
  · simp only at hbit hgts hspecs hslen
    subst hgts
    subst hspecs
    simp only [writeRowMetadata] at hw
    rw [if_pos hbit] at hw
    injection hw with hw
    subst hw
    unfold readRowMetadata
    simp only [List.append_assoc]
    simp only [r32_w32, Nat.mod_eq_of_lt hflags, Nat.mod_eq_of_lt hcnt]
    rw [if_pos hbit]
    rw [read_write_string ks _ hks]
    simp only []
    rw [read_write_string tb _ htb]
    simp only []
    rw [← hslen, readColumnSpecs_write specs t hsb]
  · simp only at hbit hnm hgts hspecs
    subst hgts
    subst hspecs
    simp only [writeRowMetadata] at hw
    rw [if_neg (by omega)] at hw
    rw [if_neg (by omega)] at hw
    injection hw with hw
    subst hw
    unfold readRowMetadata
    simp only [List.append_assoc]
    simp only [r32_w32, Nat.mod_eq_of_lt hflags, Nat.mod_eq_of_lt hcnt]
    rw [if_neg (by omega)]
    rw [if_neg (by omega)]

/-- The [bytes] cell writer (parsers/bytes.rs, lines 22-27): i32 length
(bytes_data.len() as i32) then the data. -/
def writeBytesCell (bs : ByteSeq) : ByteSeq := w32 bs.length ++ bs

/-- The [bytes] cell reader (bytes.rs, lines 13-20): an i32 length read
back as usize — a negative i32 becomes a huge usize whose read_exact
fails, modelled by requiring that many bytes. -/
def readBytesCell (b : ByteSeq) : Option (ByteSeq × ByteSeq) :=
  match r32 b with
  | none => none
  | some (n, rest) =>
      if n < 2 ^ 31 then rExact n rest
      else rExact (2 ^ 64 - (2 ^ 32 - n)) rest

theorem read_write_bytesCell (bs t : ByteSeq) (hlen : bs.length < 2 ^ 31) :
    readBytesCell (writeBytesCell bs ++ t) = some (bs, t) := by
  unfold writeBytesCell readBytesCell
  rw [List.append_assoc]
  simp only [r32_w32, Nat.mod_eq_of_lt (by omega : bs.length < 2 ^ 32)]
  rw [if_pos hlen]
  exact rExact_append bs t

/-- The per-row cell loop of Rows::read (result_op.rs, lines 277-281). -/
def readCells : Nat → ByteSeq → Option (List ByteSeq × ByteSeq)
  | 0, b => some ([], b)
  | n + 1, b =>
      match readBytesCell b with
      | none => none
      | some (cell, b1) =>
          match readCells n b1 with
          | none => none
          | some (row, b2) => some (cell :: row, b2)

theorem readCells_write (row : List ByteSeq) (t : ByteSeq)
    (hb : ∀ cell ∈ row, cell.length < 2 ^ 31) :
    readCells row.length ((row.map writeBytesCell).flatten ++ t) =
      some (row, t) := by
  induction row with
  | nil => rfl
  | cons cell rest ih =>
    have hc := hb cell (by simp)
    have ihr := ih (fun c hcm => hb c (by simp [hcm]))
    simp only [List.length_cons, List.map_cons, List.flatten_cons,
      List.append_assoc, readCells]
    rw [read_write_bytesCell cell _ hc]
    simp only [ihr]

/-- The row loop of Rows::read (result_op.rs, lines 275-283):
rows_count rows of columns_count cells each. -/
def readRowsContent (cols : Nat) :
    Nat → ByteSeq → Option (List (List ByteSeq) × ByteSeq)
  | 0, b => some ([], b)
  | n + 1, b =>
      match readCells cols b with
      | none => none
      | some (row, b1) =>
          match readRowsContent cols n b1 with
          | none => none
          | some (content, b2) => some (row :: content, b2)

theorem readRowsContent_write (cols : Nat)
    (content : List (List ByteSeq)) (t : ByteSeq)
    (hrow : ∀ row ∈ content, row.length = cols ∧
      ∀ cell ∈ row, cell.length < 2 ^ 31) :
    readRowsContent cols content.length
        ((content.map (fun row => (row.map writeBytesCell).flatten)).flatten ++ t) =
      some (content, t) := by
  induction content with
  | nil => rfl
  | cons row rest ih =>
    obtain ⟨hlen, hcells⟩ := hrow row (by simp)
    have ihr := ih (fun r hr => hrow r (by simp [hr]))
    have hcw := readCells_write row
      ((rest.map (fun r => (r.map writeBytesCell).flatten)).flatten ++ t)
      hcells
    rw [hlen] at hcw
    simp only [List.length_cons, List.map_cons, List.flatten_cons,
      List.append_assoc, readRowsContent, hcw, ihr]

/-- The Rows structure of a RESULT body (result_op.rs, lines 249-254),
at the codec level: metadata, the wire rows_count and the cell bytes. -/
structure RowsBody where
  metadata : RowMetadata
  rowsCount : Nat
  rowsContent : List (List ByteSeq)
deriving DecidableEq, Repr

/-- Rows::write (result_op.rs, lines 295-307): the metadata, rows_count
as i32, then every cell of every row in order. -/
def writeRowsBody (r : RowsBody) : Option ByteSeq :=
  match writeRowMetadata r.metadata with
  | none => none
  | some mb =>
      some (mb ++ w32 r.rowsCount ++
        (r.rowsContent.map (fun row => (row.map writeBytesCell).flatten)).flatten)

/-- Rows::read (result_op.rs, lines 265-293). -/
def readRowsBody (b : ByteSeq) : Option (RowsBody × ByteSeq) :=
  match readRowMetadata b with
  | none => none
  | some (md, b1) =>
      match r32 b1 with
      | none => none
      | some (cnt, b2) =>
          match readRowsContent md.columnsCount cnt b2 with
          | none => none
          | some (content, b3) => some (⟨md, cnt, content⟩, b3)

/-- Well-formedness of a written Rows body: well-formed metadata, wire
counts in range and agreeing with the content (Rows::new receives
rows_count alongside rows_content; the reader loops rows_count times). -/
def RowsBody.wf (r : RowsBody) : Prop :=
  r.metadata.wf ∧ r.rowsCount < 2 ^ 32 ∧
  r.rowsCount = r.rowsContent.length ∧
  ∀ row ∈ r.rowsContent, row.length = r.metadata.columnsCount ∧
    ∀ cell ∈ row, cell.length < 2 ^ 31

theorem read_write_rowsBody (r : RowsBody) (bs t : ByteSeq)
    (hwf : r.wf) (hw : writeRowsBody r = some bs) :
    readRowsBody (bs ++ t) = some (r, t) := by
  obtain ⟨md, cnt, content⟩ := r
  obtain ⟨hmwf, hcnt, hcl, hrows⟩ := hwf
  simp only at hmwf hcnt hcl hrows
  unfold writeRowsBody at hw
  cases hmw : writeRowMetadata md with
  | none => rw [hmw] at hw; cases hw
  | some mb =>
    rw [hmw] at hw
    simp only at hw
    injection hw with hw
    subst hw
    unfold readRowsBody
    simp only [List.append_assoc]
    rw [read_write_rowMetadata md mb _ hmwf hmw]
    simp only [r32_w32, Nat.mod_eq_of_lt hcnt]
    rw [hcl, readRowsContent_write md.columnsCount content t hrows]

/-- A RESULT body (result_op.rs, lines 311-317): Void (kind 0x1) or Rows
(kind 0x2). -/
inductive ResultOP where
  | void
  | rows (r : RowsBody)
deriving DecidableEq, Repr

/-- ResultOP::write (result_op.rs, lines 378-388): the i32 kind then the
Rows payload. -/
def writeResult (r : ResultOP) : Option ByteSeq :=
  match r with
  | .void => some (w32 1)
  | .rows rb =>
      match writeRowsBody rb with
      | none => none
      | some bs => some (w32 2 ++ bs)

/-- ResultOP::read (result_op.rs, lines 348-376) on an exact body buffer:
the kind, the payload, and the bytes_read = length check (the whole
buffer must be consumed). -/
def readResult (b : ByteSeq) : Option ResultOP :=
  match r32 b with
  | none => none
  | some (kind, rest) =>
      if kind = 1 then if rest = [] then some .void else none
      else if kind = 2 then
        match readRowsBody rest with
        | none => none
        | some (rb, rest2) => if rest2 = [] then some (.rows rb) else none
      else none

/-- Well-formedness of a RESULT body for the round trip. -/
def ResultOP.wf : ResultOP → Prop
  | .void => True
  | .rows rb => rb.wf

theorem read_write_result (r : ResultOP) (bs : ByteSeq)
    (hwf : r.wf) (hw : writeResult r = some bs) :
    readResult bs = some r := by
  cases r with
  | void =>
    unfold writeResult at hw
    injection hw with hw
    subst hw
    unfold readResult
    have h1 : r32 (w32 1) = some (1, []) := by
      have := r32_w32 1 []
      rw [List.append_nil] at this
      exact this
    simp only [h1, if_pos rfl]
    rfl
  | rows rb =>
    simp only [writeResult] at hw
    cases hrw : writeRowsBody rb with
    | none => rw [hrw] at hw; cases hw
    | some rbs =>
      rw [hrw] at hw
      simp only at hw
      injection hw with hw
      subst hw
      unfold readResult
      simp only [r32_w32]
      rw [if_neg (by norm_num)]
      rw [if_pos (by norm_num)]
      have hrb := read_write_rowsBody rb rbs [] hwf hrw
      rw [List.append_nil] at hrb
      simp [hrb]

/-- C9 counterexample.  The claimed unconditional identity fails on two of
its own listed frame classes.  (a) "strings of any length": write_string
casts the length to u16, so writing a 65536-byte string emits a zero
length prefix and reading the output back yields the empty string with
all 65536 payload bytes left over, not the original string.  (b) "STARTUP
string maps with any keys": write_startup silently filters out
unrecognized keys, so a map holding an extra key FOO is written
successfully but reads back without that entry. -/
theorem c9_counterexample :
    (read_string (write_string (List.replicate 65536 97)) =
        some ([], List.replicate 65536 97) ∧
      List.replicate 65536 97 ≠ ([] : ByteSeq)) ∧
    (write_startup
        [(strBytes "CQL_VERSION", strBytes "3.0.0"),
         (strBytes "FOO", strBytes "bar")] =
        some (write_string_map
          [(strBytes "CQL_VERSION", strBytes "3.0.0")]) ∧
      read_startup (write_string_map
          [(strBytes "CQL_VERSION", strBytes "3.0.0")]) =
        some [(strBytes "CQL_VERSION", strBytes "3.0.0")] ∧
      [(strBytes "CQL_VERSION", strBytes "3.0.0")] ≠
        [(strBytes "CQL_VERSION", strBytes "3.0.0"),
         (strBytes "FOO", strBytes "bar")]) := by
  constructor
  · constructor
    · have hw : write_string (List.replicate 65536 97) =
          0 :: 0 :: List.replicate 65536 97 := by
        unfold write_string w16
        rw [List.length_replicate]
        rfl
      rw [hw]
      have hr : read_string (0 :: 0 :: List.replicate 65536 97) =
          rExact 0 (List.replicate 65536 97) := rfl
      rw [hr]
      unfold rExact
      rw [if_pos (Nat.zero_le _)]
      rw [List.take_zero, List.drop_zero]
    · intro hcontra
      have hlen := congrArg List.length hcontra
      rw [List.length_replicate, List.length_nil] at hlen
      exact absurd hlen (by decide)
  · refine ⟨by decide, by decide, by decide⟩

/-- C9 (amended): the client codec satisfies read ∘ write = identity on
bounded, well-formed frames rather than unconditionally: headers with a
valid version/direction pair and a u16 stream id; [string] bodies shorter
than 2^16 bytes and [long string] bodies shorter than 2^32; STARTUP maps
whose keys are all recognized options with CQL_VERSION = "3.0.0" and
bounded entries; QUERY bodies with the query text shorter than 2^32 and a
one-byte flags field, at every consistency level; and RESULT bodies whose
metadata flags agree with the payload and whose counts match the
content. -/
theorem c9_codec_roundtrip :
    (∀ (h : Header) (t : ByteSeq),
        ((h.version = 4 ∧ h.opcode.isReq = true) ∨
          (h.version = 132 ∧ h.opcode.isResp = true)) →
        h.stream < 65536 →
        read_header (write_header h ++ t) = some (h, t)) ∧
    (∀ (s t : ByteSeq), s.length < 65536 →
        read_string (write_string s ++ t) = some (s, t)) ∧
    (∀ (s t : ByteSeq), s.length < 2 ^ 32 →
        read_long_string (write_long_string s ++ t) = some (s, t)) ∧
    (∀ (m : StrMap) (bs : ByteSeq),
        (∀ kv ∈ m, kv.1 ∈ recognizedKeys) →
        m.lookup (strBytes "CQL_VERSION") = some (strBytes "3.0.0") →
        m.length < 65536 →
        (∀ kv ∈ m, kv.1.length < 65536 ∧ kv.2.length < 65536) →
        write_startup m = some bs →
        read_startup bs = some m) ∧
    (∀ (q : ByteSeq) (cl : ConsistencyLevel) (flags : Nat) (t : ByteSeq),
        q.length < 2 ^ 32 → flags < 256 →
        read_query (write_query q cl flags ++ t) =
          some ((q, cl, flags), t)) ∧
    (∀ (r : ResultOP) (bs : ByteSeq), r.wf → writeResult r = some bs →
        readResult bs = some r) :=
  ⟨read_write_header, read_write_string, read_write_long_string,
   read_write_startup, read_write_query, read_write_result⟩

/-- C9 witness: the round-trip theorem applied at a concrete request
header and at the Void RESULT body. -/
theorem c9_codec_roundtrip_witness :
    read_header (write_header ⟨4, 0, 1, Opcode.query⟩ ++ [9]) =
      some (⟨4, 0, 1, Opcode.query⟩, [9]) ∧
    readResult (w32 1) = some ResultOP.void :=
  ⟨c9_codec_roundtrip.1 ⟨4, 0, 1, Opcode.query⟩ [9]
      (Or.inl ⟨rfl, by decide⟩) (by decide),
   c9_codec_roundtrip.2.2.2.2.2 ResultOP.void (w32 1) trivial rfl⟩

end Cassandrust
